import Mathlib

/-!
Shallow embedding of the galileo lineage/versioning engine.

The Python source keeps tabular data in CSV files on disk (the tabular
store), and metadata (DataSource, Snapshot, Preprocess, ExecutedPreprocess)
in a relational store accessed through a session: records added to the
session become externally visible only at a commit, and an error before the
commit discards the pending records, while files written to disk stay
written.  We model the store as an association list from generated paths to
byte contents, the metadata store as lists of records in insertion order,
and fresh id/path/timestamp generation as a monotone counter `gen` (the
source uses uuid4 and timestamps; freshness is the property relied upon).

Pandas dataframes and the transform library are abstracted by a `Model`
structure of pure functions; the control flow, session/commit structure,
resolution logic and record bookkeeping are translated line by line from
the source files (routers/preprocess.py, routers/datasource.py,
routers/training.py, services/datasource_service.py, services/automation.py).
-/

namespace Galileo

/-- Byte strings: contents of snapshot files. -/
abbrev Bytes := List Nat

/-- One column of a stored schema: models an entry of `schema_json["columns"]`
(`{"name": .., "dtype": .., "null_count": ..}`). -/
structure Col where
  name : String
  dtype : String
  null_count : Nat
deriving DecidableEq, Repr

/-- One transformation step of a preprocess config: models an entry of
`config["steps"]` (`{"op": .., "params": {..}}`).  Only the parameters the
engine itself inspects are modelled as fields; everything else is seen only
by the abstract transform functions, which receive the whole step. -/
structure Step where
  op : String
  how : Option String := none
  left_snapshot_id : Option Nat := none
  right_snapshot_id : Option Nat := none
  code : Option String := none
deriving DecidableEq, Repr

/-- models.DataSource. -/
structure DataSource where
  id : Nat
  name : String
  schema_json : Option (List Col) := none
  active_snapshot_id : Option Nat := none
deriving DecidableEq, Repr

/-- models.Snapshot (size is derived from the file, not stored). -/
structure Snapshot where
  id : Nat
  datasource_id : Nat
  path : Nat
deriving DecidableEq, Repr

/-- models.Preprocess; `steps` models `json.loads(config)["steps"]` and
`datasource_parents` the parent association rows in order. -/
structure Preprocess where
  id : Nat
  name : String
  steps : List Step
  datasource_child_id : Nat
  datasource_parents : List Nat
deriving DecidableEq, Repr

/-- One entry of an execution's structured `details_json` list: the engine
builds the join entry itself (with the consumed snapshot ids), every other
entry is produced by the transform layer and is opaque here. -/
inductive Detail (D : Type) where
  | join (left_snapshot_id right_snapshot_id : Nat) (how : String)
  | step (op : String) (d : D)
deriving DecidableEq, Repr

/-- models.ExecutedPreprocess; `snapshots` is the execution_snapshots
association list in insertion order (inputs first, output last). -/
structure ExecutedPreprocess (D : Type) where
  id : Nat
  preprocess_id : Nat
  details_json : List (Detail D)
  snapshots : List Nat
deriving DecidableEq, Repr

/-- The committed metadata store: the four entity tables in row insertion
order. -/
structure DB (D : Type) where
  datasources : List DataSource
  snapshots : List Snapshot
  preprocesses : List Preprocess
  executions : List (ExecutedPreprocess D)
deriving DecidableEq, Repr

/-- Externally visible system state: committed metadata, the snapshot file
store (path, bytes), and the fresh id/path generator. -/
structure Sys (D : Type) where
  db : DB D
  files : List (Nat × Bytes)
  gen : Nat
deriving DecidableEq, Repr

/-- The spec's error taxonomy; each raise site of the source is mapped to
the bucket the spec assigns it. -/
inductive Err where
  | notFound
  | invalidInput
  | invalidState
  | schemaMismatch
  | transform
  | storage
  | internal
  | fuel
deriving DecidableEq, Repr

/-- The abstract tabular/transform layer: pure functions standing for the
pandas operations and the transform library, which the engine only calls.
`write_ok` is the storage-failure oracle: whether writing given bytes at a
given fresh path succeeds. -/
structure Model (Table D : Type) where
  read_csv : Bytes → Table
  to_csv : Table → Bytes
  infer_schema : Table → List Col
  infer_upload_schema : Bytes → List Col
  apply_step : Step → Option Table → Except Unit (Table × D)
  apply_join : Step → Table → Table → Except Unit Table
  encode_row : List String → List (String × String) → Bytes
  write_ok : Nat → Bytes → Bool

variable {Table D : Type}

/-- db.get(DataSource, i). -/
def findDS (db : DB D) (i : Nat) : Option DataSource :=
  db.datasources.find? (fun d => d.id == i)

/-- db.get(Snapshot, i). -/
def findSnap (db : DB D) (i : Nat) : Option Snapshot :=
  db.snapshots.find? (fun s => s.id == i)

/-- db.get(Preprocess, i). -/
def findPP (db : DB D) (i : Nat) : Option Preprocess :=
  db.preprocesses.find? (fun p => p.id == i)

/-- Read the bytes stored at a path of the tabular store. -/
def lookupFile (files : List (Nat × Bytes)) (p : Nat) : Option Bytes :=
  (files.find? (fun e => e.1 == p)).map (fun e => e.2)

/-- dict.get on a {datasource_id: snapshot_id} mapping. -/
def mapGet (m : List (Nat × Nat)) (k : Nat) : Option Nat :=
  (m.find? (fun e => e.1 == k)).map (fun e => e.2)

/-- Overwrite the bytes stored at an existing path (in-place file mutation,
used only by the row-append endpoint). -/
def setFile (files : List (Nat × Bytes)) (p : Nat) (b : Bytes) : List (Nat × Bytes) :=
  files.map (fun e => if e.1 == p then (p, b) else e)

/-- `x or y` on optional ids (Python falsy-chaining on ids). -/
def opOr (a b : Option Nat) : Option Nat :=
  match a with
  | some v => some v
  | none => b

def addDS (db : DB D) (d : DataSource) : DB D :=
  { db with datasources := db.datasources ++ [d] }

def addSnap (db : DB D) (s : Snapshot) : DB D :=
  { db with snapshots := db.snapshots ++ [s] }

def addPP (db : DB D) (p : Preprocess) : DB D :=
  { db with preprocesses := db.preprocesses ++ [p] }

def addExec (db : DB D) (e : ExecutedPreprocess D) : DB D :=
  { db with executions := db.executions ++ [e] }

/-- Set `schema_json` on the datasource row with the given id. -/
def setSchema (db : DB D) (i : Nat) (sch : List Col) : DB D :=
  { db with datasources :=
      db.datasources.map (fun d => if d.id == i then { d with schema_json := some sch } else d) }

/-- Set `active_snapshot_id` on the datasource row with the given id. -/
def setActive (db : DB D) (i : Nat) (sid : Nat) : DB D :=
  { db with datasources :=
      db.datasources.map (fun d => if d.id == i then { d with active_snapshot_id := some sid } else d) }

/-- shemas.preprocess.ExecuteRequest. -/
structure ExecuteRequest where
  snapshot_id : Option Nat := none
  snapshots : Option (List (Nat × Nat)) := none
deriving DecidableEq, Repr

/-- The response model of an execution (shemas.preprocess.ExecutedRead). -/
structure ExecutedRead (D : Type) where
  id : Nat
  preprocess_id : Nat
  input_snapshots : List Nat
  output_snapshot : Nat
  details : List (Detail D)
deriving DecidableEq, Repr

/-- routers/preprocess.py `maybe_copy_snap`: if the consumed snapshot is the
active snapshot of its datasource, physically copy its bytes to a fresh path
and flush a new Snapshot row for the copy; otherwise (including when the
datasource row does not exist) return the snapshot unchanged.  A failed
copy surfaces as a storage error; the state argument is the session view
(flushed rows included). -/
def maybe_copy_snap (M : Model Table D) (st : Sys D) (snap : Snapshot) :
    Sys D × Except Err Snapshot :=
  match findDS st.db snap.datasource_id with
  | some ds =>
    if ds.active_snapshot_id = some snap.id then
      match lookupFile st.files snap.path with
      | none => ({ st with gen := st.gen + 2 }, .error .storage)
      | some content =>
        if M.write_ok st.gen content then
          ({ db := addSnap st.db ⟨st.gen + 1, ds.id, st.gen⟩,
             files := st.files ++ [(st.gen, content)],
             gen := st.gen + 2 }, .ok ⟨st.gen + 1, ds.id, st.gen⟩)
        else ({ st with gen := st.gen + 2 }, .error .storage)
    else (st, .ok snap)
  | none => (st, .ok snap)

/-- The join input resolution block of `execute_preprocess` (source order:
explicit request mapping, guarded by a non-empty mapping and at least two
parents; then the parents' active snapshots, the right side only when a
second parent exists; then the legacy step parameters). -/
def resolve_join (req : ExecuteRequest) (parents : List DataSource) (step : Step) :
    Option Nat × Option Nat :=
  let fromMap : Nat → Option Nat := fun idx =>
    match req.snapshots with
    | some m =>
      if m ≠ [] ∧ 2 ≤ parents.length then
        (parents.get? idx).bind (fun p => mapGet m p.id)
      else none
    | none => none
  let l0 := fromMap 0
  let r0 := fromMap 1
  let l1 := opOr l0 ((parents.get? 0).bind (fun p => p.active_snapshot_id))
  let r1 := opOr r0
    (if 1 < parents.length then (parents.get? 1).bind (fun p => p.active_snapshot_id) else none)
  (opOr l1 step.left_snapshot_id, opOr r1 step.right_snapshot_id)

/-- The step-application loop of `execute_preprocess` (step 4 of the source):
threads the session state (copies flush snapshot rows and write files), the
running dataframe, the structured detail list and the consumed input
snapshots.  Any transform failure aborts the loop. -/
def run_steps (M : Model Table D) (req : ExecuteRequest) (parents : List DataSource) :
    List Step → Sys D → Option Table → List (Detail D) → List Snapshot →
    Sys D × Except Err (Option Table × List (Detail D) × List Snapshot)
  | [], st, df, det, ins => (st, .ok (df, det, ins))
  | step :: rest, st, df, det, ins =>
    if step.op = "join" then
      match resolve_join req parents step with
      | (some lid, some rid) =>
        match findSnap st.db lid, findSnap st.db rid with
        | some ls, some rs =>
          match maybe_copy_snap M st ls with
          | (st1, .ok ls2) =>
            match maybe_copy_snap M st1 rs with
            | (st2, .ok rs2) =>
              match lookupFile st2.files ls2.path, lookupFile st2.files rs2.path with
              | some lbytes, some rbytes =>
                let how := step.how.getD "inner"
                match M.apply_join step (M.read_csv lbytes) (M.read_csv rbytes) with
                | .ok t =>
                  run_steps M req parents rest st2 (some t)
                    (det ++ [.join ls2.id rs2.id how]) (ins ++ [ls2, rs2])
                | .error _ => (st2, .error .transform)
              | none, _ => (st2, .error .storage)
              | some _, none => (st2, .error .storage)
            | (st2, .error e) => (st2, .error e)
          | (st1, .error e) => (st1, .error e)
        | none, _ => (st, .error .notFound)
        | some _, none => (st, .error .notFound)
      | (none, _) => (st, .error .invalidInput)
      | (some _, none) => (st, .error .invalidInput)
    else
      match M.apply_step step df with
      | .ok (t, d) => run_steps M req parents rest st (some t) (det ++ [.step step.op d]) ins
      | .error _ => (st, .error .transform)

/-- Steps 4–9 of routers/preprocess.py `execute_preprocess`: run the step
loop from the session state `st1` (reached after input initialization),
recompute and commit the child schema (step 6), write the output snapshot
file (step 7), flush the output snapshot row, record the execution and
commit (step 8).  On an error the pending session rows are discarded (the
request-scoped session is closed without commit), so the returned store is
the last committed one, while files already written and ids already drawn
stay consumed. -/
def execute_phase2 (M : Model Table D) (s : Sys D) (pp : Preprocess) (req : ExecuteRequest)
    (st1 : Sys D) (df0 : Option Table) (ins0 : List Snapshot) :
    Sys D × Except Err (ExecutedRead D) :=
  match run_steps M req (pp.datasource_parents.filterMap (findDS s.db)) pp.steps st1 df0 [] ins0 with
  | (st2, .error e) => ({ st2 with db := s.db }, .error e)
  | (st2, .ok (dfF, details, inputs)) =>
    match dfF with
    | none => ({ st2 with db := s.db }, .error .internal)
    | some t =>
      match findDS st2.db pp.datasource_child_id with
      | none => ({ st2 with db := s.db }, .error .internal)
      | some child =>
        if M.write_ok st2.gen (M.to_csv t) then
          ({ db := addExec
               (addSnap (setSchema st2.db child.id (M.infer_schema t))
                 ⟨st2.gen + 1, child.id, st2.gen⟩)
               ⟨st2.gen + 2, pp.id, details, inputs.map (fun i => i.id) ++ [st2.gen + 1]⟩,
             files := st2.files ++ [(st2.gen, M.to_csv t)],
             gen := st2.gen + 3 },
           .ok ⟨st2.gen + 2, pp.id, inputs.map (fun i => i.id), st2.gen + 1, details⟩)
        else ({ db := setSchema st2.db child.id (M.infer_schema t),
                files := st2.files, gen := st2.gen + 1 }, .error .storage)

/-- routers/preprocess.py `execute_preprocess`, full control flow: load the
preprocess (step 1), require at least one parent, initialize the dataframe
for a non-join execution (step 3: resolve `snapshot_id`, copy-if-active,
read the file), then hand over to the step loop and commit phase
(`execute_phase2`). -/
def execute_preprocess (M : Model Table D) (s : Sys D) (pp_id : Nat) (req : ExecuteRequest) :
    Sys D × Except Err (ExecutedRead D) :=
  match findPP s.db pp_id with
  | none => (s, .error .notFound)
  | some pp =>
    if (pp.datasource_parents.filterMap (findDS s.db)).isEmpty then (s, .error .invalidState)
    else
      if pp.steps.any (fun st => st.op == "join") then
        execute_phase2 M s pp req s none []
      else
        match req.snapshot_id with
        | none => (s, .error .invalidInput)
        | some sid =>
          match findSnap s.db sid with
          | none => (s, .error .notFound)
          | some orig =>
            match maybe_copy_snap M s orig with
            | (st1, .ok snapToUse) =>
              match lookupFile st1.files snapToUse.path with
              | none => ({ st1 with db := s.db }, .error .storage)
              | some content =>
                execute_phase2 M s pp req st1 (some (M.read_csv content)) [snapToUse]
            | (st1, .error e) => ({ st1 with db := s.db }, .error e)

/-- services/datasource_service.py `create_datasource_with_snapshot`: create
the datasource row, infer and store the schema of the uploaded bytes,
persist the file under a fresh path, create the first snapshot row, set it
active, commit. -/
def create_datasource_with_snapshot (M : Model Table D) (s : Sys D) (name : String)
    (content : Bytes) : Sys D × Except Err DataSource :=
  if M.write_ok (s.gen + 1) content then
    ({ db := addSnap
         (addDS s.db ⟨s.gen, name, some (M.infer_upload_schema content), some (s.gen + 2)⟩)
         ⟨s.gen + 2, s.gen, s.gen + 1⟩,
       files := s.files ++ [(s.gen + 1, content)],
       gen := s.gen + 3 },
     .ok ⟨s.gen, name, some (M.infer_upload_schema content), some (s.gen + 2)⟩)
  else ({ s with gen := s.gen + 2 }, .error .storage)

/-- services/datasource_service.py `upload_snapshot`: look up the
datasource, compare the (name, dtype) pairs of its stored schema with the
pairs inferred from the uploaded bytes, reject on any difference before the
file is persisted or a snapshot row is created; otherwise persist the file
at a fresh path, create the snapshot row and commit. -/
def upload_snapshot (M : Model Table D) (s : Sys D) (datasource_id : Nat)
    (content : Bytes) : Sys D × Except Err Snapshot :=
  match findDS s.db datasource_id with
  | none => (s, .error .notFound)
  | some ds =>
    if (ds.schema_json.getD []).map (fun c => (c.name, c.dtype)) =
        (M.infer_upload_schema content).map (fun c => (c.name, c.dtype)) then
      if M.write_ok s.gen content then
        ({ db := addSnap s.db ⟨s.gen + 1, datasource_id, s.gen⟩,
           files := s.files ++ [(s.gen, content)],
           gen := s.gen + 2 }, .ok ⟨s.gen + 1, datasource_id, s.gen⟩)
      else ({ s with gen := s.gen + 2 }, .error .storage)
    else (s, .error .schemaMismatch)

/-- routers/datasource.py `set_active_snapshot`: the snapshot must exist and
belong to the given datasource, else the call is rejected; on success only
the active pointer of that datasource row changes. -/
def set_active_snapshot (s : Sys D) (ds_id : Nat) (snapshot_id : Nat) :
    Sys D × Except Err Unit :=
  match findDS s.db ds_id with
  | none => (s, .error .notFound)
  | some _ =>
    match findSnap s.db snapshot_id with
    | some snap =>
      if snap.datasource_id = ds_id then
        ({ s with db := setActive s.db ds_id snapshot_id }, .ok ())
      else (s, .error .invalidInput)
    | none => (s, .error .invalidInput)

/-- Row keys must exactly match the schema columns (set comparison in the
source). -/
def rowKeysMatch (columns : List String) (row : List (String × String)) : Prop :=
  (∀ c ∈ columns, ∃ e ∈ row, e.1 = c) ∧ (∀ e ∈ row, e.1 ∈ columns)

instance (columns : List String) (row : List (String × String)) :
    Decidable (rowKeysMatch columns row) := by
  unfold rowKeysMatch; infer_instance

/-- The row-writing loop of `append_rows`: rows are appended to the open
file one at a time, so a row with mismatched keys aborts the call but the
rows already written stay in the file. -/
def append_rows_loop (M : Model Table D) (columns : List String) :
    List (List (String × String)) → Bytes → Bytes × Except Err Unit
  | [], acc => (acc, .ok ())
  | row :: rest, acc =>
    if rowKeysMatch columns row then
      append_rows_loop M columns rest (acc ++ M.encode_row columns row)
    else (acc, .error .invalidInput)

/-- services/datasource_service.py `append_rows`: appends rows in place to
the file of the active snapshot of a root datasource (first ensuring the
file ends with a newline, byte 10). -/
def append_rows (M : Model Table D) (s : Sys D) (ds_id : Nat)
    (rows : List (List (String × String))) : Sys D × Except Err Nat :=
  match findDS s.db ds_id with
  | none => (s, .error .notFound)
  | some ds =>
    let has_parent := s.db.preprocesses.any (fun pp => pp.datasource_child_id == ds_id)
    if has_parent then (s, .error .invalidInput)
    else
      match ds.active_snapshot_id with
      | none => (s, .error .invalidInput)
      | some snap_id =>
        match findSnap s.db snap_id with
        | none => (s, .error .internal)
        | some snap =>
          match lookupFile s.files snap.path with
          | none => (s, .error .internal)
          | some content =>
            match ds.schema_json with
            | none => (s, .error .internal)
            | some schema =>
              if schema.map (fun c => c.name) = [] then (s, .error .internal)
              else
                match append_rows_loop M (schema.map (fun c => c.name)) rows
                    (if content ≠ [] ∧ content.getLast? ≠ some 10 then content ++ [10]
                     else content) with
                | (written, .ok _) =>
                  ({ s with files := setFile s.files snap.path written }, .ok rows.length)
                | (written, .error e) =>
                  ({ s with files := setFile s.files snap.path written }, .error e)

/-- shemas.preprocess.PreprocessCreate (`config` reduced to its step list). -/
structure PreprocessCreate where
  name : String
  parent_ids : List Nat
  steps : List Step
deriving DecidableEq, Repr

/-- routers/preprocess.py `create_preprocess`: flush a fresh child
datasource, require 1 or 2 parent ids, require every given parent id to
name an existing datasource row (a duplicated id makes the query return
fewer rows and is rejected as not-found), store the parent links in
database row order, commit. -/
def create_preprocess (s : Sys D) (body : PreprocessCreate) :
    Sys D × Except Err Preprocess :=
  if body.parent_ids.length = 1 ∨ body.parent_ids.length = 2 then
    if (s.db.datasources.filter (fun d => body.parent_ids.contains d.id)).length =
        body.parent_ids.length then
      (⟨addPP (addDS s.db ⟨s.gen, body.name ++ "_output", none, none⟩)
          ⟨s.gen + 1, body.name, body.steps, s.gen,
           (s.db.datasources.filter (fun d => body.parent_ids.contains d.id)).map
             (fun d => d.id)⟩,
        s.files, s.gen + 2⟩,
       .ok ⟨s.gen + 1, body.name, body.steps, s.gen,
         (s.db.datasources.filter (fun d => body.parent_ids.contains d.id)).map
           (fun d => d.id)⟩)
    else ({ s with gen := s.gen + 2 }, .error .notFound)
  else ({ s with gen := s.gen + 2 }, .error .invalidInput)

/-- services/automation.py `_preprocess_producing_child` (`.first()` on the
preprocesses whose child is the given datasource). -/
def producing (db : DB D) (child_ds_id : Nat) : Option Preprocess :=
  db.preprocesses.find? (fun p => p.datasource_child_id == child_ds_id)

/-- Memo of the materializer: datasource id → snapshot id already computed
in this call tree. -/
abbrev Memo := List (Nat × Nat)

mutual

/-- services/automation.py `_materialize_to_snapshot`, with explicit
recursion fuel standing for the Python call stack (the source does not
defend against cycles; exhausted fuel models the crash of unbounded
recursion).  Returns the externally visible state together with the updated
memo and the materialized snapshot id. -/
def materialize_to_snapshot (M : Model Table D) :
    Nat → Sys D → Memo → Nat → Sys D × Except Err (Memo × Nat)
  | 0, s, _, _ => (s, .error .fuel)
  | f + 1, s, memo, target =>
    match mapGet memo target with
    | some v => (s, .ok (memo, v))
    | none =>
      match producing s.db target with
      | none =>
        match findDS s.db target with
        | none => (s, .error .invalidState)
        | some ds =>
          match ds.active_snapshot_id with
          | none => (s, .error .invalidState)
          | some a => (s, .ok ((target, a) :: memo, a))
      | some pp =>
        if (pp.datasource_parents.filterMap (findDS s.db)).isEmpty then (s, .error .internal)
        else
          if pp.steps.any (fun st => st.op == "join") then
            match materialize_parents M f s memo
                (pp.datasource_parents.filterMap (findDS s.db)) with
            | (s1, .error e) => (s1, .error e)
            | (s1, .ok (memo1, mapping)) =>
              match execute_preprocess M s1 pp.id ⟨none, some mapping⟩ with
              | (s2, .error e) => (s2, .error e)
              | (s2, .ok r) => (s2, .ok ((target, r.output_snapshot) :: memo1, r.output_snapshot))
          else
            match pp.datasource_parents.filterMap (findDS s.db) with
            | [] => (s, .error .internal)
            | p0 :: _ =>
              match materialize_to_snapshot M f s memo p0.id with
              | (s1, .error e) => (s1, .error e)
              | (s1, .ok (memo1, psnap)) =>
                match execute_preprocess M s1 pp.id ⟨some psnap, none⟩ with
                | (s2, .error e) => (s2, .error e)
                | (s2, .ok r) => (s2, .ok ((target, r.output_snapshot) :: memo1, r.output_snapshot))
termination_by f _ _ _ => (f, 0)

/-- The `{p.id: materialize(p.id) for p in parents}` comprehension of the
join branch: materializes each parent in order, threading state and memo. -/
def materialize_parents (M : Model Table D) :
    Nat → Sys D → Memo → List DataSource → Sys D × Except Err (Memo × List (Nat × Nat))
  | _, s, memo, [] => (s, .ok (memo, []))
  | f, s, memo, p :: ps =>
    match materialize_to_snapshot M f s memo p.id with
    | (s1, .error e) => (s1, .error e)
    | (s1, .ok (memo1, v)) =>
      match materialize_parents M f s1 memo1 ps with
      | (s2, .error e) => (s2, .error e)
      | (s2, .ok (memo2, rest)) => (s2, .ok (memo2, (p.id, v) :: rest))
termination_by f _ _ l => (f, l.length + 1)

end

/-- routers/training.py `list_preprocess_steps`: does this execution's
snapshot set contain the given snapshot as a row of the preprocess's child
datasource (i.e. did this execution produce it)? -/
def produced_by (db : DB D) (exe : ExecutedPreprocess D) (snap_id : Nat) : Bool :=
  match findPP db exe.preprocess_id with
  | none => false
  | some pp =>
    exe.snapshots.any (fun sid =>
      sid == snap_id &&
      match findSnap db sid with
      | some sn => sn.datasource_id == pp.datasource_child_id
      | none => false)

/-- The input snapshots of an execution: the members of its snapshot set
owned by a parent datasource of its preprocess. -/
def exe_inputs (db : DB D) (exe : ExecutedPreprocess D) : List Nat :=
  match findPP db exe.preprocess_id with
  | none => []
  | some pp =>
    exe.snapshots.filter (fun sid =>
      match findSnap db sid with
      | some sn => pp.datasource_parents.contains sn.datasource_id
      | none => false)

/-- routers/training.py `list_preprocess_steps` inner `recurse`, with the
mutated `ordered_details` list made an explicit accumulator and explicit
recursion fuel standing for the Python call stack: find the first execution
that produced the snapshot, recurse into each of its inputs in order, then
append that execution's own detail list. -/
def recurse_steps (db : DB D) : Nat → Nat → List (Detail D) → List (Detail D)
  | 0, _, acc => acc
  | f + 1, snap_id, acc =>
    match db.executions.find? (fun exe => produced_by db exe snap_id) with
    | none => acc
    | some exe =>
      ((exe_inputs db exe).foldl (fun a inp => recurse_steps db f inp a) acc) ++ exe.details_json

/-- The depth-first post-order walk as the spec words it: the detail lists
of the producing execution's inputs, roots first, followed by that
execution's own detail list. -/
def reconstruct_post_order (db : DB D) : Nat → Nat → List (Detail D)
  | 0, _ => []
  | f + 1, snap_id =>
    match db.executions.find? (fun exe => produced_by db exe snap_id) with
    | none => []
    | some exe =>
      ((exe_inputs db exe).map (fun inp => reconstruct_post_order db f inp)).foldr
        (fun a b => a ++ b) [] ++ exe.details_json

/-! ## Well-formedness and frame infrastructure

Generated ids and paths are fresh (the source uses uuid4 and
microsecond timestamps): every id or path occurring in the state is below
the generator.  Metadata tables are append-only within the engine, so
lookups of existing rows are stable across operations. -/

/-- Freshness of every id/path occurring in the state with respect to the
generator, plus uniqueness of preprocess ids. -/
structure SysWF (s : Sys D) : Prop where
  snaps : ∀ sn ∈ s.db.snapshots, sn.id < s.gen ∧ sn.path < s.gen
  dss : ∀ d ∈ s.db.datasources, d.id < s.gen ∧ ∀ a, d.active_snapshot_id = some a → a < s.gen
  pps : ∀ pp ∈ s.db.preprocesses, pp.id < s.gen ∧ pp.datasource_child_id < s.gen ∧
    (∀ pid ∈ pp.datasource_parents, pid < s.gen) ∧
    ∀ st ∈ pp.steps, (∀ v, st.left_snapshot_id = some v → v < s.gen) ∧
      (∀ v, st.right_snapshot_id = some v → v < s.gen)
  execs : ∀ e ∈ s.db.executions, e.id < s.gen
  fs : ∀ e ∈ s.files, e.1 < s.gen
  ppNodup : (s.db.preprocesses.map (fun p => p.id)).Nodup

/-- Ids a request may mention are ids the caller has seen, hence below the
generator. -/
structure ReqWF (g : Nat) (req : ExecuteRequest) : Prop where
  sid : ∀ v, req.snapshot_id = some v → v < g
  map : ∀ m, req.snapshots = some m → ∀ e ∈ m, e.2 < g

/-- The identity-relevant shape of a datasource row: everything but the
mutable schema field. -/
def dsShape (d : DataSource) : Nat × String × Option Nat :=
  (d.id, d.name, d.active_snapshot_id)

/-- What one engine call may do to the externally visible state: draw fresh
ids/paths, append fresh snapshot rows, execution rows and files, update
datasource schemas, and nothing else. -/
structure Frame (s s' : Sys D) : Prop where
  gen_le : s.gen ≤ s'.gen
  pp_eq : s'.db.preprocesses = s.db.preprocesses
  ds_shape : s'.db.datasources.map dsShape = s.db.datasources.map dsShape
  snaps : ∃ l, s'.db.snapshots = s.db.snapshots ++ l ∧
    ∀ sn ∈ l, s.gen ≤ sn.id ∧ sn.id < s'.gen ∧ s.gen ≤ sn.path ∧ sn.path < s'.gen
  execs : ∃ l, s'.db.executions = s.db.executions ++ l ∧ ∀ e ∈ l, s.gen ≤ e.id ∧ e.id < s'.gen
  fs : ∃ l, s'.files = s.files ++ l ∧ ∀ e ∈ l, s.gen ≤ e.1 ∧ e.1 < s'.gen

/-- Stronger frame for the phases that only flush snapshot rows and write
fresh files (copy-on-write and the step loop): datasources, preprocesses
and executions are untouched. -/
structure Extends (s s' : Sys D) : Prop where
  gen_le : s.gen ≤ s'.gen
  ds_eq : s'.db.datasources = s.db.datasources
  pp_eq : s'.db.preprocesses = s.db.preprocesses
  ex_eq : s'.db.executions = s.db.executions
  snaps : ∃ l, s'.db.snapshots = s.db.snapshots ++ l ∧
    ∀ sn ∈ l, s.gen ≤ sn.id ∧ sn.id < s'.gen ∧ s.gen ≤ sn.path ∧ sn.path < s'.gen
  fs : ∃ l, s'.files = s.files ++ l ∧ ∀ e ∈ l, s.gen ≤ e.1 ∧ e.1 < s'.gen

/-- The byte content addressed by a snapshot id in a state: look the row up
and read its file. -/
def view (s : Sys D) : Nat → Option Bytes := fun sid =>
  (findSnap s.db sid).bind (fun sn => lookupFile s.files sn.path)

/-- The step loop as a pure function of the snapshot-id-to-bytes view: what
the loop computes depends only on the bytes of the resolved inputs and the
step configuration (the reproducibility core). -/
def pure_pipeline (M : Model Table D) (v : Nat → Option Bytes) (req : ExecuteRequest)
    (parents : List DataSource) : List Step → Option Table → Except Unit (Option Table)
  | [], df => .ok df
  | step :: rest, df =>
    if step.op = "join" then
      match resolve_join req parents step with
      | (some lid, some rid) =>
        match v lid, v rid with
        | some lb, some rb =>
          match M.apply_join step (M.read_csv lb) (M.read_csv rb) with
          | .ok t => pure_pipeline M v req parents rest (some t)
          | .error _ => .error ()
        | none, _ => .error ()
        | some _, none => .error ()
      | (none, _) => .error ()
      | (some _, none) => .error ()
    else
      match M.apply_step step df with
      | .ok (t, _) => pure_pipeline M v req parents rest (some t)
      | .error _ => .error ()

/-- A whole execution as a pure function of the view: initialization for a
non-join run, the step loop, and the output serialization. -/
def pure_execute (M : Model Table D) (v : Nat → Option Bytes) (req : ExecuteRequest)
    (parents : List DataSource) (steps : List Step) : Except Unit Bytes :=
  if steps.any (fun st => st.op == "join") then
    match pure_pipeline M v req parents steps none with
    | .ok (some t) => .ok (M.to_csv t)
    | _ => .error ()
  else
    match req.snapshot_id with
    | none => .error ()
    | some sid =>
      match v sid with
      | none => .error ()
      | some b =>
        match pure_pipeline M v req parents steps (some (M.read_csv b)) with
        | .ok (some t) => .ok (M.to_csv t)
        | _ => .error ()

/-- Legacy ids mentioned by a step configuration are below the bound. -/
def StepsBound (B : Nat) (steps : List Step) : Prop :=
  ∀ st ∈ steps, (∀ v, st.left_snapshot_id = some v → v < B) ∧
    (∀ v, st.right_snapshot_id = some v → v < B)

/-- Active pointers of the given parent rows are below the bound. -/
def ParentsBound (B : Nat) (parents : List DataSource) : Prop :=
  ∀ p ∈ parents, ∀ a, p.active_snapshot_id = some a → a < B

/-- The spec's wording of join input resolution for one side (0 = left,
1 = right): the first satisfied of (a) the explicit request mapping entry of
the corresponding parent, (b) that parent's active snapshot, (c) the legacy
step parameter. -/
def resolve_side (req : ExecuteRequest) (parents : List DataSource) (step : Step)
    (idx : Nat) : Option Nat :=
  opOr (req.snapshots.bind (fun m => (parents.get? idx).bind (fun p => mapGet m p.id)))
    (opOr ((parents.get? idx).bind (fun p => p.active_snapshot_id))
      (if idx = 0 then step.left_snapshot_id else step.right_snapshot_id))

/-- Number of executions recorded for a preprocess id. -/
def execCount (s : Sys D) (pid : Nat) : Nat :=
  s.db.executions.countP (fun e => e.preprocess_id == pid)

/-- A rank function witnessing acyclicity of the preprocess parent graph:
every parent of the producing preprocess of a datasource ranks strictly
below it. -/
def RankOK (db : DB D) (rank : Nat → Nat) : Prop :=
  ∀ c pp, producing db c = some pp → ∀ par ∈ pp.datasource_parents, rank par < rank c

/-- `UpPP db t pid`: the preprocess `pid` is one of the upstream producers
the materializer must run to materialize datasource `t` (its own producer,
or transitively a producer of a resolvable parent). -/
inductive UpPP (db : DB D) : Nat → Nat → Prop where
  | here : ∀ t pp, producing db t = some pp → UpPP db t pp.id
  | up : ∀ t pp par pid, producing db t = some pp → par ∈ pp.datasource_parents →
      (findDS db par).isSome = true → UpPP db par pid → UpPP db t pid

/-- A datasource id that was not memoized before a materializer call but is
memoized after it: it was materialized by that call. -/
def NewlyMemoized (memo memo2 : Memo) (t : Nat) : Prop :=
  mapGet memo t = none ∧ (mapGet memo2 t).isSome = true

/-- The execution-count bookkeeping of one materializer call: execution
rows only grow, memo presence only grows, each preprocess gains at most one
execution and gains one only if the datasource it produces was newly
memoized, and every newly memoized produced datasource had its producer
executed. -/
def MatCountInv (s : Sys D) (memo : Memo) (s2 : Sys D) (memo2 : Memo) : Prop :=
  (∀ pid, execCount s pid ≤ execCount s2 pid) ∧
  (∀ t, (mapGet memo t).isSome = true → (mapGet memo2 t).isSome = true) ∧
  (∀ pid, execCount s2 pid ≤ execCount s pid + 1 ∧
    (execCount s pid < execCount s2 pid →
      ∃ t pp, producing s.db t = some pp ∧ pp.id = pid ∧ NewlyMemoized memo memo2 t)) ∧
  (∀ t pp, NewlyMemoized memo memo2 t → producing s.db t = some pp →
    execCount s pp.id < execCount s2 pp.id)

/-- Concrete transform layer used by the witnesses: a trivial one-cell
table world in which every abstract operation is total and constant. -/
def testModel : Model Unit Unit where
  read_csv := fun _ => ()
  to_csv := fun _ => [7]
  infer_schema := fun _ => [⟨"o", "integer", 0⟩]
  infer_upload_schema := fun _ => [⟨"a", "integer", 0⟩]
  apply_step := fun _ _ => .ok ((), ())
  apply_join := fun _ _ _ => .ok ()
  encode_row := fun _ _ => [1]
  write_ok := fun _ _ => true

/-- The witness transform layer with a storage fault injected at one path:
writing at path `p` fails. -/
def failAtModel (p : Nat) : Model Unit Unit :=
  { testModel with write_ok := fun q _ => q != p }

/-- Witness state: a snapshot row whose datasource id (9) names no
datasource row. -/
def c5x_state : Sys Unit :=
  ⟨⟨[], [⟨0, 9, 1⟩], [], []⟩, [(1, [42])], 2⟩

/-- Witness state: datasource 1 whose active snapshot is row 2 stored at
path 3. -/
def c5w_state : Sys Unit :=
  ⟨⟨[⟨1, "d", none, some 2⟩], [⟨2, 1, 3⟩], [], []⟩, [(3, [42])], 4⟩

/-- Witness state: a datasource with a stored schema differing from what
the test transform layer infers from any upload. -/
def c8w_state : Sys Unit :=
  ⟨⟨[⟨0, "d", some [⟨"a", "text", 0⟩], none⟩], [], [], []⟩, [], 1⟩

/-- Witness state: a datasource with a stored schema matching the test
inference, an active snapshot, and its file. -/
def c10w_state : Sys Unit :=
  ⟨⟨[⟨0, "d", some [⟨"a", "integer", 0⟩], some 1⟩], [⟨1, 0, 2⟩], [], []⟩, [(2, [9])], 3⟩

/-- Witness state: two datasources to serve as parents of a preprocess. -/
def c9_state : Sys Unit :=
  ⟨⟨[⟨0, "a", none, none⟩, ⟨1, "b", none, none⟩], [], [], []⟩, [], 2⟩

/-- Witness state: a root datasource with an active snapshot whose file
holds one byte and no trailing newline. -/
def c1x_state : Sys Unit :=
  ⟨⟨[⟨1, "d", some [⟨"a", "integer", 0⟩], some 2⟩], [⟨2, 1, 3⟩], [], []⟩, [(3, [65])], 4⟩

/-- Witness state: a root datasource (0), a derived child (2) produced by
the stepless preprocess 1, and one snapshot (3) of the root. -/
def c3x_state : Sys Unit :=
  ⟨⟨[⟨0, "r", none, none⟩, ⟨2, "c", none, none⟩], [⟨3, 0, 4⟩],
    [⟨1, "p", [], 2, [0]⟩], []⟩, [(4, [42])], 5⟩

/-- Witness state: a single-parent join preprocess (5) over datasource 0
with legacy parameters naming snapshots 2 and 3, while snapshot 1 is what
the explicit request mapping names. -/
def c4x_state : Sys Unit :=
  ⟨⟨[⟨0, "P", none, none⟩, ⟨6, "c", none, none⟩],
    [⟨1, 0, 10⟩, ⟨2, 0, 11⟩, ⟨3, 0, 12⟩],
    [⟨5, "j", [⟨"join", none, some 2, some 3, none⟩], 6, [0]⟩], []⟩,
    [(10, [1]), (11, [2]), (12, [3])], 13⟩

/-- Witness state: root 0 (active snapshot 1) feeding the stepless
preprocess 3 into datasource 4, which a self-join preprocess 5 (both
parents = 4) feeds into datasource 6. -/
def c6w_state : Sys Unit :=
  ⟨⟨[⟨0, "r", none, some 1⟩, ⟨4, "A_out", none, none⟩, ⟨6, "B_out", none, none⟩],
    [⟨1, 0, 2⟩],
    [⟨3, "A", [], 4, [0]⟩, ⟨5, "B", [⟨"join", none, none, none, none⟩], 6, [4, 4]⟩], []⟩,
    [(2, [9])], 10⟩

/-- Every snapshot row of `st` is either an old row of `s` or reads back
the same bytes as some old row of `s` (it is a byte-for-byte input copy):
the no-transformed-output-committed invariant. -/
def Base (s st : Sys D) : Prop :=
  ∀ sn ∈ st.db.snapshots, sn ∈ s.db.snapshots ∨
    ∃ sn0 ∈ s.db.snapshots, lookupFile st.files sn.path = lookupFile s.files sn0.path

/-! ## Lemmas and claim theorems -/

theorem Frame.frame_refl (s : Sys D) : Frame s s :=
  ⟨le_rfl, rfl, rfl, ⟨[], by simp⟩, ⟨[], by simp⟩, ⟨[], by simp⟩⟩

theorem Frame.frame_trans {s t u : Sys D} (h1 : Frame s t) (h2 : Frame t u) : Frame s u := by
  obtain ⟨g1, p1, d1, ⟨l1, hl1, hb1⟩, ⟨e1, he1, hbe1⟩, ⟨f1, hf1, hbf1⟩⟩ := h1
  obtain ⟨g2, p2, d2, ⟨l2, hl2, hb2⟩, ⟨e2, he2, hbe2⟩, ⟨f2, hf2, hbf2⟩⟩ := h2
  refine ⟨le_trans g1 g2, p2.trans p1, d2.trans d1, ⟨l1 ++ l2, ?_, ?_⟩,
    ⟨e1 ++ e2, ?_, ?_⟩, ⟨f1 ++ f2, ?_, ?_⟩⟩
  · rw [hl2, hl1, List.append_assoc]
  · intro sn hsn
    rcases List.mem_append.mp hsn with h | h
    · obtain ⟨a, b, c, d⟩ := hb1 sn h
      exact ⟨a, lt_of_lt_of_le b g2, c, lt_of_lt_of_le d g2⟩
    · obtain ⟨a, b, c, d⟩ := hb2 sn h
      exact ⟨le_trans g1 a, b, le_trans g1 c, d⟩
  · rw [he2, he1, List.append_assoc]
  · intro e he
    rcases List.mem_append.mp he with h | h
    · obtain ⟨a, b⟩ := hbe1 e h
      exact ⟨a, lt_of_lt_of_le b g2⟩
    · obtain ⟨a, b⟩ := hbe2 e h
      exact ⟨le_trans g1 a, b⟩
  · rw [hf2, hf1, List.append_assoc]
  · intro e he
    rcases List.mem_append.mp he with h | h
    · obtain ⟨a, b⟩ := hbf1 e h
      exact ⟨a, lt_of_lt_of_le b g2⟩
    · obtain ⟨a, b⟩ := hbf2 e h
      exact ⟨le_trans g1 a, b⟩

theorem lookupFile_append_present {files l : List (Nat × Bytes)} {p : Nat} {b : Bytes}
    (h : lookupFile files p = some b) : lookupFile (files ++ l) p = some b := by
  unfold lookupFile at *
  rw [List.find?_append]
  rcases hf : files.find? (fun e => e.1 == p) with _ | e
  · rw [hf] at h; simp at h
  · rw [hf] at h; simp_all [Option.or]

theorem lookupFile_append_fresh {files l : List (Nat × Bytes)} {p : Nat}
    (h : ∀ e ∈ l, e.1 ≠ p) : lookupFile (files ++ l) p = lookupFile files p := by
  unfold lookupFile
  rw [List.find?_append]
  have : l.find? (fun e => e.1 == p) = none := by
    rw [List.find?_eq_none]
    intro e he
    simpa using h e he
  rw [this]
  cases files.find? (fun e => e.1 == p) <;> simp [Option.or]

theorem findSnap_append_fresh {db : DB D} {l : List Snapshot} {i : Nat}
    (h : ∀ sn ∈ l, sn.id ≠ i) :
    findSnap { db with snapshots := db.snapshots ++ l } i = findSnap db i := by
  unfold findSnap
  simp only
  rw [List.find?_append]
  have : l.find? (fun sn => sn.id == i) = none := by
    rw [List.find?_eq_none]
    intro sn hsn
    simpa using h sn hsn
  rw [this]
  cases db.snapshots.find? (fun sn => sn.id == i) <;> simp [Option.or]

theorem Frame.lookupFile_present {s s' : Sys D} (h : Frame s s') {p : Nat} {b : Bytes}
    (hp : lookupFile s.files p = some b) : lookupFile s'.files p = some b := by
  obtain ⟨l, hl, _⟩ := h.fs
  rw [hl]
  exact lookupFile_append_present hp

theorem Frame.lookupFile_eq {s s' : Sys D} (h : Frame s s') {p : Nat}
    (hp : p < s.gen) : lookupFile s'.files p = lookupFile s.files p := by
  obtain ⟨l, hl, hb⟩ := h.fs
  rw [hl]
  exact lookupFile_append_fresh (fun e he => by
    obtain ⟨h1, _⟩ := hb e he
    omega)

theorem Frame.findSnap_eq {s s' : Sys D} (h : Frame s s') {i : Nat}
    (hi : i < s.gen) : findSnap s'.db i = findSnap s.db i := by
  obtain ⟨l, hl, hb⟩ := h.snaps
  unfold findSnap
  rw [hl, List.find?_append]
  have : l.find? (fun sn => sn.id == i) = none := by
    rw [List.find?_eq_none]
    intro sn hsn
    obtain ⟨h1, _⟩ := hb sn hsn
    simp only [beq_iff_eq]
    omega
  rw [this]
  cases s.db.snapshots.find? (fun sn => sn.id == i) <;> simp [Option.or]

theorem Frame.findPP_eq {s s' : Sys D} (h : Frame s s') (i : Nat) :
    findPP s'.db i = findPP s.db i := by
  unfold findPP
  rw [h.pp_eq]

theorem find?_map_dsShape {l l' : List DataSource}
    (h : l'.map dsShape = l.map dsShape) (i : Nat) :
    (l'.find? (fun d => d.id == i)).map dsShape = (l.find? (fun d => d.id == i)).map dsShape := by
  induction l generalizing l' with
  | nil =>
    have : l' = [] := by
      cases l' with
      | nil => rfl
      | cons a t => simp at h
    simp [this]
  | cons a t ih =>
    cases l' with
    | nil => simp at h
    | cons b t' =>
      simp only [List.map_cons, List.cons.injEq] at h
      obtain ⟨hab, ht⟩ := h
      have hid : b.id = a.id := congrArg (fun x => x.1) hab
      by_cases hcase : a.id = i
      · have hb : (fun d => d.id == i) b = true := by simp [hid, hcase]
        have ha : (fun d => d.id == i) a = true := by simp [hcase]
        rw [List.find?_cons_of_pos t' hb, List.find?_cons_of_pos t ha]
        simpa using hab
      · have hb : ¬((fun d => d.id == i) b = true) := by simp [hid, hcase]
        have ha : ¬((fun d => d.id == i) a = true) := by simp [hcase]
        rw [List.find?_cons_of_neg t' hb, List.find?_cons_of_neg t ha]
        exact ih ht

theorem Frame.findDS_shape {s s' : Sys D} (h : Frame s s') (i : Nat) :
    (findDS s'.db i).map dsShape = (findDS s.db i).map dsShape :=
  find?_map_dsShape h.ds_shape i

theorem Frame.findDS_active {s s' : Sys D} (h : Frame s s') (i : Nat) :
    (findDS s'.db i).map (fun d => d.active_snapshot_id) =
      (findDS s.db i).map (fun d => d.active_snapshot_id) := by
  have key : ∀ o : Option DataSource,
      o.map (fun d => d.active_snapshot_id) = (o.map dsShape).map (fun x => x.2.2) := by
    intro o; cases o <;> rfl
  rw [key, key, h.findDS_shape i]

theorem Frame.findDS_isSome {s s' : Sys D} (h : Frame s s') (i : Nat) :
    (findDS s'.db i).isSome = (findDS s.db i).isSome := by
  have key : ∀ o : Option DataSource, o.isSome = (o.map dsShape).isSome := by
    intro o; cases o <;> rfl
  rw [key, key, h.findDS_shape i]

theorem Extends.extends_refl (s : Sys D) : Extends s s :=
  ⟨le_rfl, rfl, rfl, rfl, ⟨[], by simp⟩, ⟨[], by simp⟩⟩

theorem Extends.toFrame {s s' : Sys D} (h : Extends s s') : Frame s s' :=
  ⟨h.gen_le, h.pp_eq, by rw [h.ds_eq], h.snaps,
    ⟨[], by simpa using h.ex_eq⟩, h.fs⟩

theorem Extends.extends_trans {s t u : Sys D} (h1 : Extends s t) (h2 : Extends t u) : Extends s u := by
  obtain ⟨g1, d1, p1, x1, ⟨l1, hl1, hb1⟩, ⟨f1, hf1, hbf1⟩⟩ := h1
  obtain ⟨g2, d2, p2, x2, ⟨l2, hl2, hb2⟩, ⟨f2, hf2, hbf2⟩⟩ := h2
  refine ⟨le_trans g1 g2, d2.trans d1, p2.trans p1, x2.trans x1,
    ⟨l1 ++ l2, ?_, ?_⟩, ⟨f1 ++ f2, ?_, ?_⟩⟩
  · rw [hl2, hl1, List.append_assoc]
  · intro sn hsn
    rcases List.mem_append.mp hsn with h | h
    · obtain ⟨a, b, c, d⟩ := hb1 sn h
      exact ⟨a, lt_of_lt_of_le b g2, c, lt_of_lt_of_le d g2⟩
    · obtain ⟨a, b, c, d⟩ := hb2 sn h
      exact ⟨le_trans g1 a, b, le_trans g1 c, d⟩
  · rw [hf2, hf1, List.append_assoc]
  · intro e he
    rcases List.mem_append.mp he with h | h
    · obtain ⟨a, b⟩ := hbf1 e h
      exact ⟨a, lt_of_lt_of_le b g2⟩
    · obtain ⟨a, b⟩ := hbf2 e h
      exact ⟨le_trans g1 a, b⟩

/-- Bumping only the generator preserves the frame. -/
theorem Extends.genBump (st : Sys D) (k : Nat) :
    Extends st { st with gen := st.gen + k } :=
  ⟨Nat.le_add_right _ _, rfl, rfl, rfl, ⟨[], by simp⟩, ⟨[], by simp⟩⟩

/-- Well-formedness transfers along the frame relation: old rows stay below
the old generator, new rows are below the new one. -/
theorem SysWF.of_frame {s s' : Sys D} (hwf : SysWF s) (hf : Frame s s') : SysWF s' := by
  obtain ⟨hg, hpp, hds, ⟨ls, hls, hbs⟩, ⟨le, hle, hbe⟩, ⟨lf, hlf, hbf⟩⟩ := hf
  refine ⟨?_, ?_, ?_, ?_, ?_, ?_⟩
  · intro sn hsn
    rw [hls] at hsn
    rcases List.mem_append.mp hsn with hm | hm
    · have := hwf.snaps sn hm
      omega
    · have := hbs sn hm
      omega
  · intro d hd
    have hmem : dsShape d ∈ s'.db.datasources.map dsShape := List.mem_map_of_mem dsShape hd
    rw [hds] at hmem
    obtain ⟨d0, hd0, hsh⟩ := List.mem_map.mp hmem
    have h0 := hwf.dss d0 hd0
    have hid : d0.id = d.id := congrArg (fun x => x.1) hsh
    have hact : d0.active_snapshot_id = d.active_snapshot_id := congrArg (fun x => x.2.2) hsh
    refine ⟨by omega, fun a ha => ?_⟩
    rw [← hact] at ha
    have := h0.2 a ha
    omega
  · intro p hp
    rw [hpp] at hp
    have h0 := hwf.pps p hp
    refine ⟨by omega, by omega, fun q hq => by have := h0.2.2.1 q hq; omega,
      fun s1 hs1 => ?_⟩
    have h1 := h0.2.2.2 s1 hs1
    exact ⟨fun v hv => by have := h1.1 v hv; omega,
      fun v hv => by have := h1.2 v hv; omega⟩
  · intro e he
    rw [hle] at he
    rcases List.mem_append.mp he with hm | hm
    · have := hwf.execs e hm
      omega
    · have := hbe e hm
      omega
  · intro e he
    rw [hlf] at he
    rcases List.mem_append.mp he with hm | hm
    · have := hwf.fs e hm
      omega
    · have := hbf e hm
      omega
  · rw [hpp]
    exact hwf.ppNodup

theorem SysWF.of_extends {s s' : Sys D} (hwf : SysWF s) (he : Extends s s') : SysWF s' :=
  hwf.of_frame he.toFrame

/-- Copy-if-active only flushes a fresh snapshot row and writes a fresh
file, whatever its outcome. -/
theorem mcs_extends {M : Model Table D} {st st' : Sys D} {snap : Snapshot}
    {r : Except Err Snapshot} (h : maybe_copy_snap M st snap = (st', r)) :
    Extends st st' := by
  unfold maybe_copy_snap at h
  repeat' split at h
  · cases h
    exact Extends.genBump st 2
  · cases h
    refine ⟨Nat.le_add_right _ _, rfl, rfl, rfl,
      ⟨[⟨st.gen + 1, _, st.gen⟩], rfl, ?_⟩, ⟨[(st.gen, _)], rfl, ?_⟩⟩
    · intro sn hsn
      simp only [List.mem_singleton] at hsn
      subst hsn
      exact ⟨by show st.gen ≤ st.gen + 1; omega, by show st.gen + 1 < st.gen + 2; omega,
        by show st.gen ≤ st.gen; omega, by show st.gen < st.gen + 2; omega⟩
    · intro e he
      simp only [List.mem_singleton] at he
      subst he
      exact ⟨by show st.gen ≤ st.gen; omega, by show st.gen < st.gen + 2; omega⟩
  · cases h
    exact Extends.genBump st 2
  · cases h
    exact Extends.extends_refl st
  · cases h
    exact Extends.extends_refl st

/-- Copy-if-active preserves well-formedness. -/
theorem mcs_wf {M : Model Table D} {st st' : Sys D} {snap : Snapshot}
    {r : Except Err Snapshot} (hwf : SysWF st)
    (h : maybe_copy_snap M st snap = (st', r)) : SysWF st' :=
  hwf.of_extends (mcs_extends h)

/-- The step loop only flushes fresh snapshot rows and writes fresh files,
whatever its outcome. -/
theorem rs_extends {M : Model Table D} {req : ExecuteRequest} {parents : List DataSource} :
    ∀ {steps : List Step} {st : Sys D} {df : Option Table} {det : List (Detail D)}
      {ins : List Snapshot} {st' : Sys D}
      {res : Except Err (Option Table × List (Detail D) × List Snapshot)},
    run_steps M req parents steps st df det ins = (st', res) → Extends st st' := by
  intro steps
  induction steps with
  | nil =>
    intro st df det ins st' res h
    unfold run_steps at h
    cases h
    exact Extends.extends_refl st
  | cons step rest ih =>
    intro st df det ins st' res h
    unfold run_steps at h
    repeat' split at h
    all_goals
      first
      | (cases h; solve
          | exact Extends.extends_refl _
          | exact mcs_extends (by assumption)
          | exact Extends.extends_trans (mcs_extends (by assumption)) (mcs_extends (by assumption)))
      | exact Extends.extends_trans
          (Extends.extends_trans (mcs_extends (by assumption)) (mcs_extends (by assumption))) (ih h)
      | exact ih h

theorem setSchema_shape (db : DB D) (i : Nat) (sch : List Col) :
    (setSchema db i sch).datasources.map dsShape = db.datasources.map dsShape := by
  unfold setSchema
  simp only [List.map_map]
  apply List.map_congr_left
  intro d _
  by_cases hc : d.id = i <;> simp [hc, dsShape]

/-- Rolling the metadata back to the pre-call store keeps the frame. -/
theorem Frame.rollback {s st1 : Sys D} (h : Extends s st1) :
    Frame s { st1 with db := s.db } := by
  obtain ⟨hg, hds, hpp, hex, _, ⟨lf, hlf, hbf⟩⟩ := h
  exact ⟨hg, rfl, rfl, ⟨[], by simp⟩, ⟨[], by simp⟩, ⟨lf, hlf, hbf⟩⟩

/-- The schema-commit point of the execution engine keeps the frame. -/
theorem Frame.commit {s st2 : Sys D} (he : Extends s st2) (i : Nat) (sch : List Col)
    (k : Nat) :
    Frame s { db := setSchema st2.db i sch, files := st2.files, gen := st2.gen + k } := by
  obtain ⟨hg, hds, hpp, hex, ⟨ls, hls, hbs⟩, ⟨lf, hlf, hbf⟩⟩ := he
  refine ⟨by show s.gen ≤ st2.gen + k; omega, hpp, ?_, ⟨ls, hls, ?_⟩, ⟨[], by simpa using hex⟩, ⟨lf, hlf, ?_⟩⟩
  · show (setSchema st2.db i sch).datasources.map dsShape = _
    rw [setSchema_shape, hds]
  · intro sn hsn
    have := hbs sn hsn
    refine ⟨by omega, by show sn.id < st2.gen + k; omega, by omega,
      by show sn.path < st2.gen + k; omega⟩
  · intro e hee
    have := hbf e hee
    exact ⟨by omega, by show e.1 < st2.gen + k; omega⟩

/-- The final commit of a successful execution keeps the frame. -/
theorem Frame.commit2 {s st2 : Sys D} (he : Extends s st2) (i : Nat) (sch : List Col)
    (ppid : Nat) (dets : List (Detail D)) (snapids : List Nat) (b : Bytes) :
    Frame s { db := addExec (addSnap (setSchema st2.db i sch) ⟨st2.gen + 1, i, st2.gen⟩)
                ⟨st2.gen + 2, ppid, dets, snapids⟩,
              files := st2.files ++ [(st2.gen, b)], gen := st2.gen + 3 } := by
  obtain ⟨hg, hds, hpp, hex, ⟨ls, hls, hbs⟩, ⟨lf, hlf, hbf⟩⟩ := he
  refine ⟨by show s.gen ≤ st2.gen + 3; omega, hpp, ?_, ⟨ls ++ [⟨st2.gen + 1, i, st2.gen⟩], ?_, ?_⟩,
    ⟨[⟨st2.gen + 2, ppid, dets, snapids⟩], ?_, ?_⟩, ⟨lf ++ [(st2.gen, b)], ?_, ?_⟩⟩
  · show (setSchema st2.db i sch).datasources.map dsShape = _
    rw [setSchema_shape, hds]
  · show (setSchema st2.db i sch).snapshots ++ [_] = _
    show st2.db.snapshots ++ [_] = _
    rw [hls, List.append_assoc]
  · intro sn hsn
    rcases List.mem_append.mp hsn with hm | hm
    · have := hbs sn hm
      refine ⟨by omega, by show sn.id < st2.gen + 3; omega, by omega,
        by show sn.path < st2.gen + 3; omega⟩
    · simp only [List.mem_singleton] at hm
      subst hm
      exact ⟨by show s.gen ≤ st2.gen + 1; omega, by show st2.gen + 1 < st2.gen + 3; omega,
        by show s.gen ≤ st2.gen; omega, by show st2.gen < st2.gen + 3; omega⟩
  · show st2.db.executions ++ [_] = _
    rw [hex]
  · intro e hee
    simp only [List.mem_singleton] at hee
    subst hee
    exact ⟨by show s.gen ≤ st2.gen + 2; omega, by show st2.gen + 2 < st2.gen + 3; omega⟩
  · rw [hlf, List.append_assoc]
  · intro e hee
    rcases List.mem_append.mp hee with hm | hm
    · have := hbf e hm
      exact ⟨by omega, by show e.1 < st2.gen + 3; omega⟩
    · simp only [List.mem_singleton] at hm
      subst hm
      exact ⟨by show s.gen ≤ st2.gen; omega, by show st2.gen < st2.gen + 3; omega⟩

/-- The step loop and commit phase keeps the frame, starting from any
session state `st1` reached from `s`. -/
theorem phase2_frame {M : Model Table D} {s st1 s' : Sys D} {pp : Preprocess}
    {req : ExecuteRequest} {df0 : Option Table} {ins0 : List Snapshot}
    {res : Except Err (ExecutedRead D)} (hini : Extends s st1)
    (h : execute_phase2 M s pp req st1 df0 ins0 = (s', res)) : Frame s s' := by
  unfold execute_phase2 at h
  repeat' split at h
  all_goals
    cases h
    first
    | exact Frame.rollback (Extends.extends_trans hini (rs_extends (by assumption)))
    | exact Frame.commit (Extends.extends_trans hini (rs_extends (by assumption))) _ _ _
    | exact Frame.commit2 (Extends.extends_trans hini (rs_extends (by assumption))) _ _ _ _ _ _

/-- One execution call, whatever its outcome, only draws fresh ids, appends
fresh snapshot rows, execution rows and files, and updates a schema. -/
theorem exec_frame {M : Model Table D} {s s' : Sys D} {pp_id : Nat} {req : ExecuteRequest}
    {res : Except Err (ExecutedRead D)}
    (h : execute_preprocess M s pp_id req = (s', res)) : Frame s s' := by
  unfold execute_preprocess at h
  repeat' split at h
  all_goals
    first
    | exact phase2_frame (Extends.extends_refl s) h
    | exact phase2_frame (mcs_extends (by assumption)) h
    | (cases h; solve
        | exact Frame.frame_refl _
        | exact Frame.rollback (Extends.extends_refl s)
        | exact Frame.rollback (mcs_extends (by assumption)))

theorem exec_wf {M : Model Table D} {s s' : Sys D} {pp_id : Nat} {req : ExecuteRequest}
    {res : Except Err (ExecutedRead D)} (hwf : SysWF s)
    (h : execute_preprocess M s pp_id req = (s', res)) : SysWF s' :=
  hwf.of_frame (exec_frame h)

/-- The snapshot handed back by copy-if-active reads back the same bytes as
the snapshot passed in (a physical duplicate, or the very same row). -/
theorem mcs_ok_content {M : Model Table D} {st st' : Sys D} {snap s2 : Snapshot}
    (hfs : ∀ e ∈ st.files, e.1 < st.gen)
    (h : maybe_copy_snap M st snap = (st', .ok s2)) :
    lookupFile st'.files s2.path = lookupFile st.files snap.path := by
  unfold maybe_copy_snap at h
  repeat' split at h
  · cases h
  · rename_i content hcont hw
    cases h
    show lookupFile (st.files ++ [(st.gen, content)]) st.gen = lookupFile st.files snap.path
    rw [hcont]
    unfold lookupFile
    rw [List.find?_append]
    have hnone : st.files.find? (fun e => e.1 == st.gen) = none := by
      rw [List.find?_eq_none]
      intro e he
      have := hfs e he
      simp only [beq_iff_eq]
      omega
    rw [hnone]
    simp [Option.or]
  · cases h
  · cases h
    rfl
  · cases h
    rfl

/-- Branch characterization of copy-if-active: when the datasource row is
missing or the snapshot is not active, the very same snapshot comes back
with the state untouched; when it is active and the copy succeeds, a fresh
row pointing at a fresh duplicate path comes back. -/
theorem mcs_cases {M : Model Table D} {st : Sys D} {snap : Snapshot} :
    (∀ ds, findDS st.db snap.datasource_id = some ds →
      ds.active_snapshot_id ≠ some snap.id →
      maybe_copy_snap M st snap = (st, .ok snap)) ∧
    (findDS st.db snap.datasource_id = none →
      maybe_copy_snap M st snap = (st, .ok snap)) ∧
    (∀ ds content, findDS st.db snap.datasource_id = some ds →
      ds.active_snapshot_id = some snap.id →
      lookupFile st.files snap.path = some content →
      M.write_ok st.gen content = true →
      maybe_copy_snap M st snap =
        ({ db := addSnap st.db ⟨st.gen + 1, ds.id, st.gen⟩,
           files := st.files ++ [(st.gen, content)],
           gen := st.gen + 2 }, .ok ⟨st.gen + 1, ds.id, st.gen⟩)) := by
  refine ⟨?_, ?_, ?_⟩
  · intro ds hds hact
    unfold maybe_copy_snap
    rw [hds]
    simp only [if_neg hact]
  · intro hds
    unfold maybe_copy_snap
    rw [hds]
  · intro ds content hds hact hcont hw
    unfold maybe_copy_snap
    rw [hds]
    simp only [if_pos hact, hcont, if_pos hw]

theorem lookupFile_snoc_fresh {files : List (Nat × Bytes)} {g : Nat} {b : Bytes}
    (hfs : ∀ e ∈ files, e.1 < g) : lookupFile (files ++ [(g, b)]) g = some b := by
  unfold lookupFile
  rw [List.find?_append]
  have hnone : files.find? (fun e => e.1 == g) = none := by
    rw [List.find?_eq_none]
    intro e he
    have := hfs e he
    simp only [beq_iff_eq]
    omega
  rw [hnone]
  simp [Option.or]

/-- C5 (amended).  Copy-if-active contract: when the snapshot's datasource
row does not exist, or the snapshot is not that datasource's active
snapshot, the very same snapshot is returned and the state is untouched (no
NotFound is raised for a missing datasource); when the snapshot is active
and the copy write succeeds, the bytes are duplicated under a fresh path
and a freshly-identified Snapshot row referencing the duplicate is appended
and returned. -/
theorem C5_copy_if_active_contract (M : Model Table D) (st : Sys D) (snap : Snapshot)
    (hwf : SysWF st) :
    ((findDS st.db snap.datasource_id = none ∨
      ∃ ds, findDS st.db snap.datasource_id = some ds ∧
        ds.active_snapshot_id ≠ some snap.id) →
      maybe_copy_snap M st snap = (st, .ok snap)) ∧
    (∀ ds content, findDS st.db snap.datasource_id = some ds →
      ds.active_snapshot_id = some snap.id →
      lookupFile st.files snap.path = some content →
      M.write_ok st.gen content = true →
      ∃ st' s2, maybe_copy_snap M st snap = (st', .ok s2) ∧
        s2 ≠ snap ∧
        (∀ sn ∈ st.db.snapshots, sn.id ≠ s2.id) ∧
        s2.path ≠ snap.path ∧
        lookupFile st'.files s2.path = some content ∧
        st'.db.snapshots = st.db.snapshots ++ [s2] ∧
        s2.datasource_id = ds.id) := by
  constructor
  · intro hcase
    rcases hcase with hnone | ⟨ds, hds, hact⟩
    · exact mcs_cases.2.1 hnone
    · exact mcs_cases.1 ds hds hact
  · intro ds content hds hact hcont hw
    refine ⟨_, _, mcs_cases.2.2 ds content hds hact hcont hw, ?_, ?_, ?_, ?_, ?_, ?_⟩
    · have hmem : ds ∈ st.db.datasources := List.mem_of_find?_eq_some hds
      have hlt := (hwf.dss ds hmem).2 snap.id hact
      intro hEq
      have : snap.id = st.gen + 1 := by rw [← hEq]
      omega
    · intro sn hsn
      have := (hwf.snaps sn hsn).1
      show sn.id ≠ st.gen + 1
      omega
    · have hmemf : snap.path < st.gen := by
        unfold lookupFile at hcont
        rcases hfind : st.files.find? (fun e => e.1 == snap.path) with _ | e
        · rw [hfind] at hcont
          simp at hcont
        · have := hwf.fs e (List.mem_of_find?_eq_some hfind)
          have hkey : e.1 = snap.path := by simpa using List.find?_some hfind
          omega
      show st.gen ≠ snap.path
      omega
    · show lookupFile (st.files ++ [(st.gen, content)]) st.gen = some content
      exact lookupFile_snoc_fresh hwf.fs
    · rfl
    · rfl

/-- C5 counterexample to the claim as stated: for a snapshot whose
datasource does not exist, copy-if-active does not fail with NotFound; it
returns the very same snapshot with the state unchanged. -/
theorem C5_missing_datasource_not_notFound :
    findDS c5x_state.db 9 = none ∧
    maybe_copy_snap testModel c5x_state ⟨0, 9, 1⟩ = (c5x_state, .ok ⟨0, 9, 1⟩) ∧
    ∀ e : Err, (maybe_copy_snap testModel c5x_state ⟨0, 9, 1⟩).2 ≠ .error e := by
  refine ⟨rfl, rfl, ?_⟩
  intro e
  simp [maybe_copy_snap, c5x_state, findDS, lookupFile]

/-- Witness for C5: both branches of the contract exercised on concrete
states. -/
theorem C5_copy_if_active_contract_witness :
    (maybe_copy_snap testModel c5x_state ⟨0, 9, 1⟩ = (c5x_state, .ok ⟨0, 9, 1⟩)) ∧
    ∃ st' s2, maybe_copy_snap testModel c5w_state ⟨2, 1, 3⟩ = (st', .ok s2) ∧
      s2 ≠ ⟨2, 1, 3⟩ ∧
      (∀ sn ∈ c5w_state.db.snapshots, sn.id ≠ s2.id) ∧
      s2.path ≠ (3 : Nat) ∧
      lookupFile st'.files s2.path = some [42] ∧
      st'.db.snapshots = c5w_state.db.snapshots ++ [s2] ∧
      s2.datasource_id = 1 := by
  constructor
  · exact (C5_copy_if_active_contract testModel c5x_state ⟨0, 9, 1⟩
      ⟨by decide, by decide, by decide, by decide, by decide, by decide⟩).1 (Or.inl (by decide))
  · exact (C5_copy_if_active_contract testModel c5w_state ⟨2, 1, 3⟩
      ⟨by decide, by decide, by decide, by decide, by decide, by decide⟩).2
      ⟨1, "d", none, some 2⟩ [42] (by decide) (by decide) (by decide) (by decide)

/-- C8.  Schema mismatch rejection is persistence-free: an upload to an
existing datasource whose inferred (name, dtype) pairs differ from the
stored ones fails with SchemaMismatch and returns the state exactly as it
was — no file written, no snapshot row created. -/
theorem C8_schema_mismatch_persistence_free (M : Model Table D) (s : Sys D)
    (dsId : Nat) (content : Bytes) (ds : DataSource)
    (hds : findDS s.db dsId = some ds)
    (hmm : (ds.schema_json.getD []).map (fun c => (c.name, c.dtype)) ≠
      (M.infer_upload_schema content).map (fun c => (c.name, c.dtype))) :
    upload_snapshot M s dsId content = (s, .error .schemaMismatch) := by
  unfold upload_snapshot
  rw [hds]
  simp only [if_neg hmm]

/-- Witness for C8 on a concrete state: the stored schema says text, the
inference says integer, the call returns the state unchanged. -/
theorem C8_schema_mismatch_persistence_free_witness :
    upload_snapshot testModel c8w_state 0 [1, 2] = (c8w_state, .error .schemaMismatch) :=
  C8_schema_mismatch_persistence_free testModel c8w_state 0 [1, 2]
    ⟨0, "d", some [⟨"a", "text", 0⟩], none⟩ (by decide) (by decide)

theorem setActive_keeps_rest (db : DB D) (i : Nat) (sid : Nat) :
    (setActive db i sid).datasources.map (fun d => (d.id, d.name, d.schema_json)) =
      db.datasources.map (fun d => (d.id, d.name, d.schema_json)) := by
  unfold setActive
  simp only [List.map_map]
  apply List.map_congr_left
  intro d _
  by_cases hc : d.id = i <;> simp [hc]

/-- C10.  A successful upload leaves every datasource row untouched (active
pointer and stored schema included) and the fresh snapshot is not the
active one; and the separate set-active operation succeeds only for a
snapshot row belonging to that datasource, changing nothing but that
pointer. -/
theorem C10_upload_frame_and_set_active :
    (∀ (M : Model Table D) (s : Sys D) (dsId : Nat) (content : Bytes) (s' : Sys D)
      (snap : Snapshot), SysWF s →
      upload_snapshot M s dsId content = (s', .ok snap) →
      s'.db.datasources = s.db.datasources ∧
      ∀ ds, findDS s.db dsId = some ds → ds.active_snapshot_id ≠ some snap.id) ∧
    (∀ (s : Sys D) (ds_id sid : Nat) (s' : Sys D) (u : Unit),
      set_active_snapshot s ds_id sid = (s', .ok u) →
      (∃ sn, findSnap s.db sid = some sn ∧ sn.datasource_id = ds_id) ∧
      s' = { s with db := setActive s.db ds_id sid } ∧
      s'.db.datasources.map (fun d => (d.id, d.name, d.schema_json)) =
        s.db.datasources.map (fun d => (d.id, d.name, d.schema_json)) ∧
      s'.db.snapshots = s.db.snapshots ∧ s'.files = s.files) := by
  constructor
  · intro M s dsId content s' snap hwf h
    unfold upload_snapshot at h
    repeat' split at h
    all_goals cases h
    constructor
    · rfl
    · intro ds hds hactive
      have hmem : ds ∈ s.db.datasources := List.mem_of_find?_eq_some hds
      have hlt : s.gen + 1 < s.gen := (hwf.dss ds hmem).2 _ hactive
      omega
  · intro s ds_id sid s' u h
    unfold set_active_snapshot at h
    repeat' split at h
    all_goals cases h
    rename_i ds hds snap hsnap hbelongs
    refine ⟨⟨snap, hsnap, hbelongs⟩, rfl, setActive_keeps_rest s.db ds_id sid, rfl, rfl⟩

/-- Witness for C10: upload a matching file over a datasource with active
snapshot 1, then move the pointer with the separate operation. -/
theorem C10_upload_frame_and_set_active_witness :
    ((upload_snapshot testModel c10w_state 0 [1]).1.db.datasources =
      c10w_state.db.datasources ∧
     ∀ ds, findDS c10w_state.db 0 = some ds → ds.active_snapshot_id ≠ some (4 : Nat)) ∧
    ∃ s2, set_active_snapshot c10w_state 0 1 = (s2, .ok ()) ∧
      s2 = { c10w_state with db := setActive c10w_state.db 0 1 } := by
  constructor
  · have hrun : upload_snapshot testModel c10w_state 0 [1] =
        ({ db := addSnap c10w_state.db ⟨4, 0, 3⟩,
           files := c10w_state.files ++ [(3, [1])], gen := 5 }, .ok ⟨4, 0, 3⟩) := by rfl
    have h := ((@C10_upload_frame_and_set_active Unit Unit).1 testModel c10w_state 0 [1] _ _
      ⟨by decide, by decide, by decide, by decide, by decide, by decide⟩ hrun)
    rw [hrun]
    exact h
  · have hrun : set_active_snapshot c10w_state 0 1 =
        ({ c10w_state with db := setActive c10w_state.db 0 1 }, .ok ()) := by rfl
    have h := (@C10_upload_frame_and_set_active Unit Unit).2 c10w_state 0 1 _ () hrun
    exact ⟨_, hrun, h.2.1⟩

/-- C9 (amended).  definePreprocess enforces the parent-count invariant
(1 or 2 parents, else rejected as invalid input) and that every given
parent id names an existing datasource row (a missing or duplicated id is
rejected as not-found); it performs no join-step validation: any step list,
join or not, is accepted with either parent count, and the accepted
preprocess stores the steps verbatim, a freshly created child datasource
and the matching parent rows in database order. -/
theorem C9_create_preprocess_contract (s : Sys D) (body : PreprocessCreate) :
    (¬(body.parent_ids.length = 1 ∨ body.parent_ids.length = 2) →
      create_preprocess s body = ({ s with gen := s.gen + 2 }, .error .invalidInput)) ∧
    ((body.parent_ids.length = 1 ∨ body.parent_ids.length = 2) →
      (s.db.datasources.filter (fun d => body.parent_ids.contains d.id)).length ≠
        body.parent_ids.length →
      create_preprocess s body = ({ s with gen := s.gen + 2 }, .error .notFound)) ∧
    (∀ s' pp, create_preprocess s body = (s', .ok pp) →
      (body.parent_ids.length = 1 ∨ body.parent_ids.length = 2) ∧
      pp.steps = body.steps ∧
      pp.datasource_parents =
        (s.db.datasources.filter (fun d => body.parent_ids.contains d.id)).map
          (fun d => d.id) ∧
      pp.datasource_parents.length = body.parent_ids.length ∧
      pp.datasource_child_id = s.gen ∧
      s' = ⟨addPP (addDS s.db ⟨s.gen, body.name ++ "_output", none, none⟩) pp,
        s.files, s.gen + 2⟩) := by
  refine ⟨?_, ?_, ?_⟩
  · intro hcount
    unfold create_preprocess
    rw [if_neg hcount]
  · intro hcount hlen
    unfold create_preprocess
    rw [if_pos hcount, if_neg hlen]
  · intro s' pp h
    unfold create_preprocess at h
    repeat' split at h
    all_goals cases h
    rename_i hcount hlen
    refine ⟨hcount, rfl, rfl, ?_, rfl, rfl⟩
    rw [List.length_map]
    exact hlen

/-- C9 counterexample to the claim as stated: a definition with two parents
and a step list containing no join step at all is accepted. -/
theorem C9_two_parents_without_join_accepted :
    (create_preprocess c9_state ⟨"p", [0, 1], []⟩).2 =
      .ok ⟨3, "p", [], 2, [0, 1]⟩ ∧
    (([] : List Step).any (fun st => st.op == "join")) = false ∧
    ([0, 1] : List Nat).length = 2 := by
  refine ⟨?_, rfl, rfl⟩
  rfl

/-- Witness for C9: the rejection branches and the acceptance branch on the
concrete two-datasource state. -/
theorem C9_create_preprocess_contract_witness :
    create_preprocess c9_state ⟨"q", [], []⟩ =
      ({ c9_state with gen := 4 }, .error .invalidInput) ∧
    create_preprocess c9_state ⟨"q", [0, 0], []⟩ =
      ({ c9_state with gen := 4 }, .error .notFound) ∧
    ∃ s' pp, create_preprocess c9_state ⟨"p", [0, 1], []⟩ = (s', .ok pp) ∧
      pp.datasource_parents.length = 2 ∧ pp.steps = [] := by
  refine ⟨?_, ?_, ?_⟩
  · exact (C9_create_preprocess_contract c9_state ⟨"q", [], []⟩).1 (by decide)
  · exact (C9_create_preprocess_contract c9_state ⟨"q", [0, 0], []⟩).2.1
      (by decide) (by decide)
  · have hrun : create_preprocess c9_state ⟨"p", [0, 1], []⟩ =
        (⟨addPP (addDS c9_state.db ⟨2, "p" ++ "_output", none, none⟩)
          ⟨3, "p", [], 2, [0, 1]⟩, c9_state.files, 4⟩, .ok ⟨3, "p", [], 2, [0, 1]⟩) := by rfl
    have h := (C9_create_preprocess_contract c9_state ⟨"p", [0, 1], []⟩).2.2 _ _ hrun
    exact ⟨_, _, hrun, h.2.2.2.1.trans rfl, h.2.1.trans rfl⟩

/-- Materializing a list of parents keeps the frame, given that
materializing one target at the inner fuel does. -/
theorem matp_frame_of {M : Model Table D} (f : Nat)
    (IH : ∀ (s : Sys D) (memo : Memo) (t : Nat) (s' : Sys D)
      (r : Except Err (Memo × Nat)),
      materialize_to_snapshot M f s memo t = (s', r) → Frame s s') :
    ∀ (parents : List DataSource) (s : Sys D) (memo : Memo) (s' : Sys D)
      (r : Except Err (Memo × List (Nat × Nat))),
    materialize_parents M f s memo parents = (s', r) → Frame s s' := by
  intro parents
  induction parents with
  | nil =>
    intro s memo s' r h
    unfold materialize_parents at h
    cases h
    exact Frame.frame_refl s
  | cons p ps ih =>
    intro s memo s' r h
    unfold materialize_parents at h
    repeat' split at h
    all_goals cases h
    all_goals
      first
      | exact IH _ _ _ _ _ (by assumption)
      | exact Frame.frame_trans (IH _ _ _ _ _ (by assumption)) (ih _ _ _ _ (by assumption))

/-- Materialization, whatever its outcome, only performs execution calls:
it keeps the frame. -/
theorem mat_frame {M : Model Table D} :
    ∀ (f : Nat) (s : Sys D) (memo : Memo) (t : Nat) (s' : Sys D)
      (r : Except Err (Memo × Nat)),
    materialize_to_snapshot M f s memo t = (s', r) → Frame s s' := by
  intro f
  induction f with
  | zero =>
    intro s memo t s' r h
    unfold materialize_to_snapshot at h
    cases h
    exact Frame.frame_refl s
  | succ f ih =>
    intro s memo t s' r h
    unfold materialize_to_snapshot at h
    repeat' split at h
    all_goals cases h
    all_goals
      first
      | exact Frame.frame_refl _
      | exact matp_frame_of f ih _ _ _ _ _ (by assumption)
      | exact Frame.frame_trans (matp_frame_of f ih _ _ _ _ _ (by assumption))
          (exec_frame (by assumption))
      | exact ih _ _ _ _ _ (by assumption)
      | exact Frame.frame_trans (ih _ _ _ _ _ (by assumption)) (exec_frame (by assumption))

/-- C1 (amended).  Snapshot byte immutability holds across every modelled
operation except the row-append endpoint: any bytes readable at a path
before an execution, an upload, a dataset creation, an active-pointer
change, a preprocess definition or a materialization read back unchanged
afterwards, whether the call succeeds or fails. -/
theorem C1_snapshot_bytes_immutable_except_append :
    (∀ (M : Model Table D) (s : Sys D) (pp_id : Nat) (req : ExecuteRequest)
      (p : Nat) (b : Bytes), lookupFile s.files p = some b →
      lookupFile (execute_preprocess M s pp_id req).1.files p = some b) ∧
    (∀ (M : Model Table D) (s : Sys D) (i : Nat) (content : Bytes) (p : Nat) (b : Bytes),
      lookupFile s.files p = some b →
      lookupFile (upload_snapshot M s i content).1.files p = some b) ∧
    (∀ (M : Model Table D) (s : Sys D) (name : String) (content : Bytes)
      (p : Nat) (b : Bytes), lookupFile s.files p = some b →
      lookupFile (create_datasource_with_snapshot M s name content).1.files p = some b) ∧
    (∀ (s : Sys D) (i j p : Nat) (b : Bytes), lookupFile s.files p = some b →
      lookupFile (set_active_snapshot s i j).1.files p = some b) ∧
    (∀ (s : Sys D) (body : PreprocessCreate) (p : Nat) (b : Bytes),
      lookupFile s.files p = some b →
      lookupFile (create_preprocess s body).1.files p = some b) ∧
    (∀ (M : Model Table D) (f : Nat) (s : Sys D) (memo : Memo) (t p : Nat) (b : Bytes),
      lookupFile s.files p = some b →
      lookupFile (materialize_to_snapshot M f s memo t).1.files p = some b) := by
  refine ⟨?_, ?_, ?_, ?_, ?_, ?_⟩
  · intro M s pp_id req p b hb
    rcases hE : execute_preprocess M s pp_id req with ⟨s2, res⟩
    exact (exec_frame hE).lookupFile_present hb
  · intro M s i content p b hb
    rcases hE : upload_snapshot M s i content with ⟨s2, res⟩
    unfold upload_snapshot at hE
    repeat' split at hE
    all_goals cases hE
    all_goals first
      | exact hb
      | exact lookupFile_append_present hb
  · intro M s name content p b hb
    rcases hE : create_datasource_with_snapshot M s name content with ⟨s2, res⟩
    unfold create_datasource_with_snapshot at hE
    repeat' split at hE
    all_goals cases hE
    all_goals first
      | exact hb
      | exact lookupFile_append_present hb
  · intro s i j p b hb
    rcases hE : set_active_snapshot s i j with ⟨s2, res⟩
    unfold set_active_snapshot at hE
    repeat' split at hE
    all_goals cases hE
    all_goals exact hb
  · intro s body p b hb
    rcases hE : create_preprocess s body with ⟨s2, res⟩
    unfold create_preprocess at hE
    repeat' split at hE
    all_goals cases hE
    all_goals exact hb
  · intro M f s memo t p b hb
    rcases hE : materialize_to_snapshot M f s memo t with ⟨s2, res⟩
    exact (mat_frame f s memo t s2 res hE).lookupFile_present hb

/-- C1 counterexample to the claim as stated: the row-append endpoint
changes the bytes addressed by the active snapshot of a root datasource in
place. -/
theorem C1_append_rows_mutates_snapshot_bytes :
    findSnap c1x_state.db 2 = some ⟨2, 1, 3⟩ ∧
    (∃ ds, findDS c1x_state.db 1 = some ds ∧ ds.active_snapshot_id = some 2) ∧
    lookupFile c1x_state.files 3 = some [65] ∧
    (append_rows testModel c1x_state 1 [[("a", "x")]]).2 = .ok 1 ∧
    lookupFile (append_rows testModel c1x_state 1 [[("a", "x")]]).1.files 3 =
      some [65, 10, 1] ∧
    ([65, 10, 1] : Bytes) ≠ [65] := by
  exact ⟨rfl, ⟨_, rfl, rfl⟩, rfl, rfl, rfl, by decide⟩

/-- Witness for C1: each conjunct applied to a concrete state carrying the
byte string 42 (or 9) at a live path. -/
theorem C1_snapshot_bytes_immutable_except_append_witness :
    lookupFile (execute_preprocess testModel c3x_state 1 ⟨some 3, none⟩).1.files 4 =
      some [42] ∧
    lookupFile (upload_snapshot testModel c10w_state 0 [1]).1.files 2 = some [9] ∧
    lookupFile (create_datasource_with_snapshot testModel c10w_state "n" [5]).1.files 2 =
      some [9] ∧
    lookupFile (set_active_snapshot c10w_state 0 1).1.files 2 = some [9] ∧
    lookupFile (create_preprocess c10w_state ⟨"x", [0], []⟩).1.files 2 = some [9] ∧
    lookupFile (materialize_to_snapshot testModel 3 c3x_state [] 2).1.files 4 =
      some [42] := by
  refine ⟨?_, ?_, ?_, ?_, ?_, ?_⟩
  · exact C1_snapshot_bytes_immutable_except_append.1 testModel c3x_state 1
      ⟨some 3, none⟩ 4 [42] (by rfl)
  · exact C1_snapshot_bytes_immutable_except_append.2.1 testModel c10w_state 0 [1]
      2 [9] (by rfl)
  · exact C1_snapshot_bytes_immutable_except_append.2.2.1 testModel c10w_state "n" [5]
      2 [9] (by rfl)
  · exact (@C1_snapshot_bytes_immutable_except_append Unit Unit).2.2.2.1 c10w_state 0 1
      2 [9] (by rfl)
  · exact (@C1_snapshot_bytes_immutable_except_append Unit Unit).2.2.2.2.1 c10w_state
      ⟨"x", [0], []⟩ 2 [9] (by rfl)
  · exact C1_snapshot_bytes_immutable_except_append.2.2.2.2.2 testModel 3 c3x_state []
      2 4 [42] (by rfl)

theorem opOr_eq_some {a b : Option Nat} {v : Nat} (h : opOr a b = some v) :
    a = some v ∨ b = some v := by
  unfold opOr at h
  cases a with
  | none => exact Or.inr h
  | some w => exact Or.inl h

theorem mapGet_bound {m : List (Nat × Nat)} {B k v : Nat}
    (hm : ∀ e ∈ m, e.2 < B) (h : mapGet m k = some v) : v < B := by
  unfold mapGet at h
  rcases hf : m.find? (fun e => e.1 == k) with _ | e
  · rw [hf] at h
    simp at h
  · rw [hf] at h
    simp only [Option.map_some', Option.some.injEq] at h
    have := hm e (List.mem_of_find?_eq_some hf)
    omega

/-- Every id the join resolution can produce is an id the caller, an active
pointer or the stored config already held: it is below the bound. -/
theorem resolve_join_bound {B : Nat} {req : ExecuteRequest} {parents : List DataSource}
    {step : Step} (hreq : ReqWF B req) (hpar : ParentsBound B parents)
    (hl : ∀ v, step.left_snapshot_id = some v → v < B)
    (hr : ∀ v, step.right_snapshot_id = some v → v < B) :
    (∀ l, (resolve_join req parents step).1 = some l → l < B) ∧
    (∀ r, (resolve_join req parents step).2 = some r → r < B) := by
  have hfromMap : ∀ idx v,
      (match req.snapshots with
        | some m =>
          if m ≠ [] ∧ 2 ≤ parents.length then
            (parents.get? idx).bind (fun p => mapGet m p.id)
          else none
        | none => none) = some v → v < B := by
    intro idx v hv
    rcases hm : req.snapshots with _ | m
    · rw [hm] at hv
      simp at hv
    · rw [hm] at hv
      simp only at hv
      split at hv
      · rcases hg : parents.get? idx with _ | p
        · rw [hg] at hv
          simp at hv
        · rw [hg] at hv
          simp only [Option.some_bind] at hv
          exact mapGet_bound (hreq.map m hm) hv
      · simp at hv
  have hactive : ∀ idx v, (parents.get? idx).bind (fun p => p.active_snapshot_id) = some v →
      v < B := by
    intro idx v hv
    rcases hg : parents.get? idx with _ | p
    · rw [hg] at hv
      simp at hv
    · rw [hg] at hv
      simp only [Option.some_bind] at hv
      exact hpar p (List.get?_mem hg) v hv
  constructor
  · intro l hlv
    simp only [resolve_join] at hlv
    rcases opOr_eq_some hlv with h1 | h1
    · rcases opOr_eq_some h1 with h2 | h2
      · exact hfromMap 0 l h2
      · exact hactive 0 l h2
    · exact hl l h1
  · intro r hrv
    simp only [resolve_join] at hrv
    rcases opOr_eq_some hrv with h1 | h1
    · rcases opOr_eq_some h1 with h2 | h2
      · exact hfromMap 1 r h2
      · split at h2
        · exact hactive 1 r h2
        · simp at h2
    · exact hr r h1

/-- A failed copy-if-active leaves the metadata and files untouched. -/
theorem mcs_error_state {M : Model Table D} {st st' : Sys D} {snap : Snapshot} {e : Err}
    (h : maybe_copy_snap M st snap = (st', .error e)) :
    st'.db = st.db ∧ st'.files = st.files := by
  unfold maybe_copy_snap at h
  repeat' split at h
  all_goals cases h
  all_goals exact ⟨rfl, rfl⟩

/-- A successful copy-if-active either returns the input unchanged, or
flushes exactly one fresh row duplicating the input's bytes at the fresh
path. -/
theorem mcs_ok_cases {M : Model Table D} {st st' : Sys D} {snap s2 : Snapshot}
    (h : maybe_copy_snap M st snap = (st', .ok s2)) :
    (st' = st ∧ s2 = snap) ∨
    ∃ content, lookupFile st.files snap.path = some content ∧
      s2 = ⟨st.gen + 1, snap.datasource_id, st.gen⟩ ∧
      st' = ⟨addSnap st.db s2, st.files ++ [(st.gen, content)], st.gen + 2⟩ := by
  unfold maybe_copy_snap at h
  repeat' split at h
  · cases h
  · rename_i o1 ds hds hact o2 content hcont hw
    cases h
    right
    have hid : ds.id = snap.datasource_id := by simpa using List.find?_some hds
    refine ⟨content, hcont, ?_, ?_⟩
    · rw [hid]
    · rw [hid]
  · cases h
  · cases h
    exact Or.inl ⟨rfl, rfl⟩
  · cases h
    exact Or.inl ⟨rfl, rfl⟩

/-- Copying a snapshot that already exists in the base state preserves the
copies-only invariant. -/
theorem base_transfer_mcs {M : Model Table D} {s st st1 : Sys D} {ls ls2 : Snapshot}
    (hwf : SysWF s) (hext : Extends s st) (hbase : Base s st)
    (hmem : ls ∈ s.db.snapshots)
    (h : maybe_copy_snap M st ls = (st1, .ok ls2)) : Base s st1 := by
  have hwfst : SysWF st := hwf.of_extends hext
  rcases mcs_ok_cases h with ⟨hst, _⟩ | ⟨content, hcont, hs2, hst⟩
  · rw [hst]
    exact hbase
  · subst hst
    intro sn hsn
    simp only [addSnap, List.mem_append, List.mem_singleton] at hsn
    rcases hsn with hsn | hsn
    · rcases hbase sn hsn with hold | ⟨sn0, hsn0, hcopy⟩
      · exact Or.inl hold
      · refine Or.inr ⟨sn0, hsn0, ?_⟩
        have hfresh : lookupFile (st.files ++ [(st.gen, content)]) sn.path =
            lookupFile st.files sn.path := by
          apply lookupFile_append_fresh
          intro e he
          simp only [List.mem_singleton] at he
          subst he
          have := (hwfst.snaps sn hsn).2
          simp only
          omega
        rw [hfresh]
        exact hcopy
    · subst hsn
      refine Or.inr ⟨ls, hmem, ?_⟩
      subst hs2
      show lookupFile (st.files ++ [(st.gen, content)]) st.gen = _
      rw [lookupFile_snoc_fresh hwfst.fs]
      have hlsp : ls.path < s.gen := (hwf.snaps ls hmem).2
      rw [← hext.toFrame.lookupFile_eq hlsp]
      exact hcont.symm

/-- The step loop never commits a transformed output row: every snapshot
row present after it is an old row or a byte-for-byte copy of an old row. -/
theorem rs_copies {M : Model Table D} {req : ExecuteRequest} {parents : List DataSource}
    {s : Sys D} (hwf : SysWF s) (hreq : ReqWF s.gen req)
    (hpar : ParentsBound s.gen parents) :
    ∀ (steps : List Step) (st : Sys D) (df : Option Table) (det : List (Detail D))
      (ins : List Snapshot) (st' : Sys D)
      (res : Except Err (Option Table × List (Detail D) × List Snapshot)),
    StepsBound s.gen steps → Extends s st → Base s st →
    run_steps M req parents steps st df det ins = (st', res) →
    Base s st' := by
  intro steps
  induction steps with
  | nil =>
    intro st df det ins st' res hsb hext hbase hrun
    unfold run_steps at hrun
    cases hrun
    exact hbase
  | cons step rest ih =>
    intro st df det ins st' res hsb hext hbase hrun
    have hsbh := hsb step (List.mem_cons_self step rest)
    have hsbt : StepsBound s.gen rest := fun q hq => hsb q (List.mem_cons_of_mem step hq)
    unfold run_steps at hrun
    split at hrun
    case isTrue hop =>
      split at hrun
      case h_1 lid rid hres =>
        split at hrun
        case h_1 ls rs hls hrs =>
          have hbound := resolve_join_bound hreq hpar hsbh.1 hsbh.2
          have hlid : lid < s.gen := hbound.1 lid (by rw [hres])
          have hrid : rid < s.gen := hbound.2 rid (by rw [hres])
          have hlmem : ls ∈ s.db.snapshots := by
            have heq := hext.toFrame.findSnap_eq hlid
            rw [heq] at hls
            exact List.mem_of_find?_eq_some hls
          have hrmem : rs ∈ s.db.snapshots := by
            have heq := hext.toFrame.findSnap_eq hrid
            rw [heq] at hrs
            exact List.mem_of_find?_eq_some hrs
          split at hrun
          case h_1 st1 ls2 hmc1 =>
            have hext1 : Extends s st1 := hext.extends_trans (mcs_extends hmc1)
            have hbase1 : Base s st1 := base_transfer_mcs hwf hext hbase hlmem hmc1
            split at hrun
            case h_1 st2 rs2 hmc2 =>
              have hext2 : Extends s st2 := hext1.extends_trans (mcs_extends hmc2)
              have hbase2 : Base s st2 := base_transfer_mcs hwf hext1 hbase1 hrmem hmc2
              split at hrun
              case h_1 lb rb hlb hrb =>
                split at hrun
                case h_1 t hj =>
                  exact ih st2 _ _ _ st' res hsbt hext2 hbase2 hrun
                case h_2 e hj =>
                  cases hrun
                  exact hbase2
              case h_2 hnone =>
                cases hrun
                exact hbase2
              case h_3 b hnone =>
                cases hrun
                exact hbase2
            case h_2 st2 e hmc2 =>
              cases hrun
              obtain ⟨hdb, hfl⟩ := mcs_error_state hmc2
              intro sn hsn
              rw [hdb] at hsn
              rcases hbase1 sn hsn with hold | ⟨sn0, hm0, hcp⟩
              · exact Or.inl hold
              · exact Or.inr ⟨sn0, hm0, by rw [hfl]; exact hcp⟩
          case h_2 st1 e hmc1 =>
            cases hrun
            obtain ⟨hdb, hfl⟩ := mcs_error_state hmc1
            intro sn hsn
            rw [hdb] at hsn
            rcases hbase sn hsn with hold | ⟨sn0, hm0, hcp⟩
            · exact Or.inl hold
            · exact Or.inr ⟨sn0, hm0, by rw [hfl]; exact hcp⟩
        case h_2 hnone =>
          cases hrun
          exact hbase
        case h_3 x hnone =>
          cases hrun
          exact hbase
      case h_2 x hres =>
        cases hrun
        exact hbase
      case h_3 x hres =>
        cases hrun
        exact hbase
    case isFalse hop =>
      split at hrun
      case h_1 t d happ =>
        exact ih st _ _ _ st' res hsbt hext hbase hrun
      case h_2 e happ =>
        cases hrun
        exact hbase

theorem parents_bound_of_wf {s : Sys D} (hwf : SysWF s) (l : List Nat) :
    ParentsBound s.gen (l.filterMap (findDS s.db)) := by
  intro p hp a ha
  obtain ⟨pid, _, hfind⟩ := List.mem_filterMap.mp hp
  have hmem : p ∈ s.db.datasources := List.mem_of_find?_eq_some hfind
  exact (hwf.dss p hmem).2 a ha

theorem steps_bound_of_wf {s : Sys D} (hwf : SysWF s) {pp : Preprocess}
    (hpp : pp ∈ s.db.preprocesses) : StepsBound s.gen pp.steps :=
  fun st hst => (hwf.pps pp hpp).2.2.2 st hst

/-- A failing step-loop-and-commit phase never commits an execution row or
a transformed output snapshot, and a transform failure commits nothing at
all. -/
theorem phase2_error_shape {M : Model Table D} {s st1 s' : Sys D} {pp : Preprocess}
    {req : ExecuteRequest} {df0 : Option Table} {ins0 : List Snapshot} {e : Err}
    (hwf : SysWF s) (hreq : ReqWF s.gen req) (hpp : pp ∈ s.db.preprocesses)
    (hext : Extends s st1) (hbase : Base s st1)
    (h : execute_phase2 M s pp req st1 df0 ins0 = (s', .error e)) :
    s'.db.executions = s.db.executions ∧ Base s s' ∧ (e = .transform → s'.db = s.db) := by
  have hpar := parents_bound_of_wf hwf pp.datasource_parents
  have hsb := steps_bound_of_wf hwf hpp
  unfold execute_phase2 at h
  split at h
  case h_1 st2 e2 hrun =>
    cases h
    exact ⟨rfl, fun sn hsn => Or.inl hsn, fun _ => rfl⟩
  case h_2 st2 dfF details inputs hrun =>
    have hbase2 : Base s st2 := rs_copies hwf hreq hpar pp.steps st1 df0 [] ins0 st2 _
      hsb hext hbase hrun
    have hext2 : Extends s st2 := hext.extends_trans (rs_extends hrun)
    repeat' split at h
    all_goals cases h
    · exact ⟨rfl, fun sn hsn => Or.inl hsn, fun _ => rfl⟩
    · exact ⟨rfl, fun sn hsn => Or.inl hsn, fun _ => rfl⟩
    · refine ⟨?_, ?_, ?_⟩
      · show st2.db.executions = s.db.executions
        exact hext2.ex_eq
      · intro sn hsn
        exact hbase2 sn hsn
      · intro hET
        simp at hET

/-- C3 (amended).  Failure atomicity of execute: on any error no
ExecutedPreprocess row is committed and no transformed output Snapshot row
is committed (every committed snapshot row is an old row or a
byte-for-byte input copy); a TransformError in a step commits nothing at
all.  A storage failure while writing the output, however, happens after
the child-schema commit, so the schema update and the copy-on-write input
rows may already be durable. -/
theorem C3_execute_failure_atomicity (M : Model Table D) (s : Sys D) (pp_id : Nat)
    (req : ExecuteRequest) (s' : Sys D) (e : Err) (hwf : SysWF s)
    (hreq : ReqWF s.gen req)
    (h : execute_preprocess M s pp_id req = (s', .error e)) :
    s'.db.executions = s.db.executions ∧ Base s s' ∧
    (e = .transform → s'.db = s.db) := by
  unfold execute_preprocess at h
  split at h
  case h_1 hpp =>
    cases h
    exact ⟨rfl, fun sn hsn => Or.inl hsn, fun _ => rfl⟩
  case h_2 pp hpp =>
    have hppmem : pp ∈ s.db.preprocesses := List.mem_of_find?_eq_some hpp
    split at h
    case isTrue hempty =>
      cases h
      exact ⟨rfl, fun sn hsn => Or.inl hsn, fun _ => rfl⟩
    case isFalse hempty =>
      split at h
      case isTrue hjoin =>
        exact phase2_error_shape hwf hreq hppmem (Extends.extends_refl s)
          (fun sn hsn => Or.inl hsn) h
      case isFalse hjoin =>
        split at h
        case h_1 hsid =>
          cases h
          exact ⟨rfl, fun sn hsn => Or.inl hsn, fun _ => rfl⟩
        case h_2 sid hsid =>
          split at h
          case h_1 horig =>
            cases h
            exact ⟨rfl, fun sn hsn => Or.inl hsn, fun _ => rfl⟩
          case h_2 orig horig =>
            have homem : orig ∈ s.db.snapshots := List.mem_of_find?_eq_some horig
            split at h
            case h_1 st1 snapToUse hmc =>
              have hext1 : Extends s st1 := mcs_extends hmc
              have hbase1 : Base s st1 :=
                base_transfer_mcs hwf (Extends.extends_refl s) (fun sn hsn => Or.inl hsn)
                  homem hmc
              split at h
              case h_1 hcont =>
                cases h
                exact ⟨rfl, fun sn hsn => Or.inl hsn, fun _ => rfl⟩
              case h_2 content hcont =>
                exact phase2_error_shape hwf hreq hppmem hext1 hbase1 h
            case h_2 st1 e1 hmc =>
              cases h
              exact ⟨rfl, fun sn hsn => Or.inl hsn, fun _ => rfl⟩

/-- C3 counterexample to the claim as stated: a storage failure while
writing the output happens after the child-schema commit (step 6 before
step 7 in the source), so the child datasource's schema IS changed by the
failing call. -/
theorem C3_storage_failure_commits_schema :
    (execute_preprocess (failAtModel 5) c3x_state 1 ⟨some 3, none⟩).2 =
      .error .storage ∧
    (findDS c3x_state.db 2).map (fun d => d.schema_json) = some none ∧
    (findDS (execute_preprocess (failAtModel 5) c3x_state 1 ⟨some 3, none⟩).1.db 2).map
      (fun d => d.schema_json) = some (some [⟨"o", "integer", 0⟩]) :=
  ⟨rfl, rfl, rfl⟩

/-- Witness for C3: a failing execute (missing snapshot id) on a concrete
state commits nothing. -/
theorem C3_execute_failure_atomicity_witness :
    (execute_preprocess testModel c3x_state 1 ⟨none, none⟩).1.db.executions =
      c3x_state.db.executions ∧
    Base c3x_state (execute_preprocess testModel c3x_state 1 ⟨none, none⟩).1 := by
  have hrun : execute_preprocess testModel c3x_state 1 ⟨none, none⟩ =
      (c3x_state, .error .invalidInput) := by rfl
  have h := C3_execute_failure_atomicity testModel c3x_state 1 ⟨none, none⟩
    c3x_state .invalidInput
    ⟨by decide, by decide, by decide, by decide, by decide, by decide⟩
    ⟨by decide, by decide⟩ hrun
  rw [hrun]
  exact ⟨h.1, h.2.1⟩

/-- C7.  Lineage reconstruction order: the accumulator-threaded recursion
of the source (find the first execution that produced the snapshot,
recurse into each of its input snapshots in order, then append that
execution's own structured detail list) computes exactly the depth-first
post-order walk — the concatenation of the recursively reconstructed
detail lists of the inputs, roots first, followed by the producing
execution's own details. -/
theorem C7_reconstruction_is_post_order (db : DB D) :
    ∀ (fuel snap_id : Nat) (acc : List (Detail D)),
    recurse_steps db fuel snap_id acc = acc ++ reconstruct_post_order db fuel snap_id := by
  intro fuel
  induction fuel with
  | zero =>
    intro snap acc
    unfold recurse_steps reconstruct_post_order
    simp
  | succ f ih =>
    intro snap acc
    unfold recurse_steps reconstruct_post_order
    cases hfind : db.executions.find? (fun exe => produced_by db exe snap) with
    | none => simp [hfind]
    | some exe =>
      simp only [hfind]
      have hlist : ∀ (inputs : List Nat) (a : List (Detail D)),
          inputs.foldl (fun b inp => recurse_steps db f inp b) a =
            a ++ (inputs.map (fun inp => reconstruct_post_order db f inp)).foldr
              (fun x y => x ++ y) [] := by
        intro inputs
        induction inputs with
        | nil => intro a; simp
        | cons i is ihl =>
          intro a
          simp only [List.foldl_cons, List.map_cons, List.foldr_cons]
          rw [ih i a, ihl, List.append_assoc]
      rw [hlist, List.append_assoc]

theorem opOr_assoc (a b c : Option Nat) : opOr (opOr a b) c = opOr a (opOr b c) := by
  cases a <;> cases b <;> rfl

/-- A successful step loop appends to the consumed-inputs accumulator. -/
theorem rs_acc {M : Model Table D} {req : ExecuteRequest} {parents : List DataSource} :
    ∀ {steps : List Step} {st : Sys D} {df : Option Table} {det : List (Detail D)}
      {ins : List Snapshot} {st' : Sys D} {df' : Option Table} {det' : List (Detail D)}
      {ins' : List Snapshot},
    run_steps M req parents steps st df det ins = (st', .ok (df', det', ins')) →
    ∃ insA, ins' = ins ++ insA := by
  intro steps
  induction steps with
  | nil =>
    intro st df det ins st' df' det' ins' h
    unfold run_steps at h
    cases h
    exact ⟨[], by simp⟩
  | cons step rest ih =>
    intro st df det ins st' df' det' ins' h
    unfold run_steps at h
    split at h
    case isTrue hop =>
      split at h
      case h_1 lid rid hres =>
        split at h
        case h_1 ls rs hls hrs =>
          split at h
          case h_1 st1 ls2 hmc1 =>
            split at h
            case h_1 st2 rs2 hmc2 =>
              split at h
              case h_1 lb rb hlb hrb =>
                split at h
                case h_1 t hj =>
                  obtain ⟨A, hA⟩ := ih h
                  exact ⟨_, by rw [hA, List.append_assoc]⟩
                case h_2 e hj => exact absurd h (by simp)
              case h_2 hnone => exact absurd h (by simp)
              case h_3 b hnone => exact absurd h (by simp)
            case h_2 st2 e hmc2 => exact absurd h (by simp)
          case h_2 st1 e hmc1 => exact absurd h (by simp)
        case h_2 hnone => exact absurd h (by simp)
        case h_3 x hnone => exact absurd h (by simp)
      case h_2 x hres => exact absurd h (by simp)
      case h_3 x hres => exact absurd h (by simp)
    case isFalse hop =>
      split at h
      case h_1 t d happ =>
        obtain ⟨A, hA⟩ := ih h
        exact ⟨A, hA⟩
      case h_2 e happ => exact absurd h (by simp)

/-- Finding the just-appended snapshot row. -/
theorem findSnap_snoc_fresh {db : DB D} {x : Snapshot}
    (hfresh : ∀ sn ∈ db.snapshots, sn.id ≠ x.id) :
    findSnap (addSnap db x) x.id = some x := by
  unfold findSnap addSnap
  simp only
  rw [List.find?_append]
  have hnone : db.snapshots.find? (fun sn => sn.id == x.id) = none := by
    rw [List.find?_eq_none]
    intro sn hsn
    simpa using hfresh sn hsn
  rw [hnone]
  simp [Option.or]

/-- The snapshot row recorded as a consumed input after copy-if-active is
findable in the session, fresh-bounded, and reads back exactly the bytes
the resolved snapshot id addressed in the base state. -/
theorem mcs_consumed_content {M : Model Table D} {s st1 st2 : Sys D} {rs rs2 : Snapshot}
    {rid : Nat} (hwf : SysWF s) (hext : Extends s st1)
    (hfind : findSnap s.db rid = some rs) (hrid : rid < s.gen)
    (h : maybe_copy_snap M st1 rs = (st2, .ok rs2)) :
    findSnap st2.db rs2.id = some rs2 ∧ rs2.id < st2.gen ∧ rs2.path < st2.gen ∧
    lookupFile st2.files rs2.path = view s rid := by
  have hwf1 : SysWF st1 := hwf.of_extends hext
  have hrsmem : rs ∈ s.db.snapshots := List.mem_of_find?_eq_some hfind
  have hrsid : rs.id = rid := by simpa using List.find?_some hfind
  have hrspath : rs.path < s.gen := (hwf.snaps rs hrsmem).2
  have hview : view s rid = lookupFile s.files rs.path := by
    unfold view
    rw [hfind]
    rfl
  rcases mcs_ok_cases h with ⟨hst, hsnap⟩ | ⟨content, hcont, hs2, hst⟩
  · subst hst
    refine ⟨?_, ?_, ?_, ?_⟩
    · rw [hsnap, hrsid, hext.toFrame.findSnap_eq hrid]
      exact hfind
    · rw [hsnap]
      have h1 := (hwf.snaps rs hrsmem).1
      have h2 := hext.gen_le
      omega
    · rw [hsnap]
      have h2 := hext.gen_le
      omega
    · rw [hsnap, hview]
      exact hext.toFrame.lookupFile_eq hrspath
  · subst hst
    subst hs2
    refine ⟨?_, ?_, ?_, ?_⟩
    · show findSnap (addSnap st1.db _) (st1.gen + 1) = _
      exact findSnap_snoc_fresh (fun sn hsn => by
        have := (hwf1.snaps sn hsn).1
        show sn.id ≠ st1.gen + 1
        omega)
    · show st1.gen + 1 < st1.gen + 2
      omega
    · show st1.gen < st1.gen + 2
      omega
    · show lookupFile (st1.files ++ [(st1.gen, content)]) st1.gen = _
      rw [lookupFile_snoc_fresh hwf1.fs, hview, ← hext.toFrame.lookupFile_eq hrspath]
      exact hcont.symm

/-- With at least two resolvable parents, the source's resolution block
computes, for each side independently, the first satisfied of: explicit
request mapping entry, parent's active snapshot, legacy step parameter. -/
theorem opOr_none (b : Option Nat) : opOr none b = b := rfl

theorem opOr_some (a : Nat) (b : Option Nat) : opOr (some a) b = some a := rfl

theorem resolve_join_eq_sides {req : ExecuteRequest} {parents : List DataSource}
    {step : Step} (hpar2 : 2 ≤ parents.length) :
    resolve_join req parents step =
      (resolve_side req parents step 0, resolve_side req parents step 1) := by
  have h1lt : 1 < parents.length := by omega
  have hbindnone : ∀ (o : Option DataSource),
      (o.bind fun _ => (none : Option Nat)) = none := by
    intro o
    cases o <;> rfl
  have hmg : ∀ k, mapGet ([] : List (Nat × Nat)) k = none := fun _ => rfl
  unfold resolve_join resolve_side
  rcases hm : req.snapshots with _ | m
  · simp [opOr_assoc, opOr_none, h1lt]
  · by_cases hme : m = []
    · subst hme
      simp [opOr_assoc, opOr_none, h1lt, hmg, hbindnone]
    · simp [opOr_assoc, opOr_none, h1lt, hme, hpar2]

/-- A successful execution whose step list starts with the join consumes,
as its first two inputs, snapshots that read back exactly the bytes
addressed by the two resolved input ids in the pre-call state. -/
theorem join_first_success_inputs {M : Model Table D} {s s' : Sys D} {pp : Preprocess}
    {req : ExecuteRequest} {jstep : Step} {rest : List Step} {l r : Nat}
    {res : ExecutedRead D}
    (hwf : SysWF s)
    (hsteps : pp.steps = jstep :: rest) (hop : jstep.op = "join")
    (hres : resolve_join req (pp.datasource_parents.filterMap (findDS s.db)) jstep =
      (some l, some r))
    (hl : l < s.gen) (hr : r < s.gen)
    (h : execute_phase2 M s pp req s none [] = (s', .ok res)) :
    ∃ i1 i2 insRest, res.input_snapshots = i1 :: i2 :: insRest ∧
      (findSnap s'.db i1).bind (fun sn => lookupFile s'.files sn.path) = view s l ∧
      (findSnap s'.db i2).bind (fun sn => lookupFile s'.files sn.path) = view s r := by
  unfold execute_phase2 at h
  split at h
  case h_1 st2f e hrun => exact absurd h (by simp)
  case h_2 st2f dfF details inputs hrun =>
    rw [hsteps] at hrun
    rw [run_steps, if_pos hop] at hrun
    split at hrun
    case h_2 x hres2 =>
      rw [hres] at hres2
      simp at hres2
    case h_3 x hres2 =>
      rw [hres] at hres2
      simp at hres2
    case h_1 lid rid hres2 =>
      rw [hres] at hres2
      simp only [Prod.mk.injEq, Option.some.injEq] at hres2
      obtain ⟨rfl, rfl⟩ := hres2
      split at hrun
      case h_2 hnone => exact absurd hrun (by simp)
      case h_3 x hnone => exact absurd hrun (by simp)
      case h_1 ls rs hls hrs =>
        split at hrun
        case h_2 st1 e hmc1 => exact absurd hrun (by simp)
        case h_1 st1 ls2 hmc1 =>
          split at hrun
          case h_2 st2 e hmc2 => exact absurd hrun (by simp)
          case h_1 st2 rs2 hmc2 =>
            split at hrun
            case h_2 hnone => exact absurd hrun (by simp)
            case h_3 b hnone => exact absurd hrun (by simp)
            case h_1 lb rb hlb hrb =>
              split at hrun
              case h_2 e hj => exact absurd hrun (by simp)
              case h_1 t hj =>
                have hc1 := mcs_consumed_content hwf (Extends.extends_refl s) hls hl hmc1
                have hext1 : Extends s st1 := mcs_extends hmc1
                have hc2 := mcs_consumed_content hwf hext1 hrs hr hmc2
                have hext12 : Extends st1 st2 := mcs_extends hmc2
                have hext2f : Extends st1 st2f := hext12.extends_trans (rs_extends hrun)
                have hext22f : Extends st2 st2f := rs_extends hrun
                obtain ⟨A, hA⟩ := rs_acc hrun
                split at h
                case h_1 => exact absurd h (by simp)
                case h_2 t2 =>
                  split at h
                  case h_1 hchild => exact absurd h (by simp)
                  case h_2 child hchild =>
                    split at h
                    case isFalse hw => exact absurd h (by simp)
                    case isTrue hw =>
                      cases h
                      have hfr1 : Frame st1
                          ⟨addExec (addSnap (setSchema st2f.db child.id
                              (M.infer_schema t2)) ⟨st2f.gen + 1, child.id, st2f.gen⟩)
                            ⟨st2f.gen + 2, pp.id, details,
                              inputs.map (fun i => i.id) ++ [st2f.gen + 1]⟩,
                           st2f.files ++ [(st2f.gen, M.to_csv t2)], st2f.gen + 3⟩ :=
                        Frame.commit2 hext2f child.id (M.infer_schema t2) pp.id details
                          (inputs.map (fun i => i.id) ++ [st2f.gen + 1]) (M.to_csv t2)
                      have hfr2 : Frame st2
                          ⟨addExec (addSnap (setSchema st2f.db child.id
                              (M.infer_schema t2)) ⟨st2f.gen + 1, child.id, st2f.gen⟩)
                            ⟨st2f.gen + 2, pp.id, details,
                              inputs.map (fun i => i.id) ++ [st2f.gen + 1]⟩,
                           st2f.files ++ [(st2f.gen, M.to_csv t2)], st2f.gen + 3⟩ :=
                        Frame.commit2 hext22f child.id (M.infer_schema t2) pp.id details
                          (inputs.map (fun i => i.id) ++ [st2f.gen + 1]) (M.to_csv t2)
                      refine ⟨ls2.id, rs2.id, A.map (fun i => i.id), ?_, ?_, ?_⟩
                      · show inputs.map (fun i => i.id) = _
                        rw [hA]
                        simp
                      · obtain ⟨hfind1, hid1, hpath1, hcont1⟩ := hc1
                        have hfind1' := hfr1.findSnap_eq (i := ls2.id) hid1
                        rw [hfind1', hfind1]
                        simp only [Option.some_bind]
                        rw [hfr1.lookupFile_eq hpath1]
                        exact hcont1
                      · obtain ⟨hfind2, hid2, hpath2, hcont2⟩ := hc2
                        have hfind2' := hfr2.findSnap_eq (i := rs2.id) hid2
                        rw [hfind2', hfind2]
                        simp only [Option.some_bind]
                        rw [hfr2.lookupFile_eq hpath2]
                        exact hcont2


/-- C4.  Join input resolution precedence.  Corrected: the claimed per-side
precedence (explicit request mapping, then the parent's active snapshot,
then the legacy step parameters, InvalidInput when a side stays
unresolved) holds only when the preprocess has at least two resolvable
parents; the source guards the explicit-mapping branch with
`req.snapshots and len(parent_ds_list) >= 2`, so a single-parent join
ignores the explicit mapping entirely (and its right side never consults
an active pointer).  Part one states the two-parent agreement with the
spec-worded per-side resolver, part two the InvalidInput outcome, part
three that a successful execution really consumes, as its first two
inputs, snapshots carrying the bytes of the two resolved ids. -/
theorem C4_join_resolution_precedence {M : Model Table D} {s : Sys D} {pp : Preprocess}
    {req : ExecuteRequest} {jstep : Step} {rest : List Step} {pp_id : Nat}
    (hwf : SysWF s) (hpp : findPP s.db pp_id = some pp)
    (hsteps : pp.steps = jstep :: rest) (hop : jstep.op = "join") :
    (∀ parents : List DataSource, 2 ≤ parents.length →
      resolve_join req parents jstep =
        (resolve_side req parents jstep 0, resolve_side req parents jstep 1)) ∧
    (((resolve_join req (pp.datasource_parents.filterMap (findDS s.db)) jstep).1 = none ∨
      (resolve_join req (pp.datasource_parents.filterMap (findDS s.db)) jstep).2 = none) →
      ¬ (pp.datasource_parents.filterMap (findDS s.db)).isEmpty = true →
      execute_preprocess M s pp_id req = (s, .error .invalidInput)) ∧
    (∀ l r s' res,
      resolve_join req (pp.datasource_parents.filterMap (findDS s.db)) jstep =
        (some l, some r) →
      l < s.gen → r < s.gen →
      execute_preprocess M s pp_id req = (s', .ok res) →
      ∃ i1 i2 insRest, res.input_snapshots = i1 :: i2 :: insRest ∧
        (findSnap s'.db i1).bind (fun sn => lookupFile s'.files sn.path) = view s l ∧
        (findSnap s'.db i2).bind (fun sn => lookupFile s'.files sn.path) = view s r) := by
  have hany : pp.steps.any (fun st => st.op == "join") = true := by
    rw [hsteps]
    simp [hop]
  refine ⟨fun parents h2 => resolve_join_eq_sides h2, ?_, ?_⟩
  · intro hdisj hne
    rcases hrj : resolve_join req (pp.datasource_parents.filterMap (findDS s.db)) jstep
      with ⟨o1, o2⟩
    rw [hrj] at hdisj
    unfold execute_preprocess
    simp only [hpp]
    rw [if_neg hne, if_pos hany]
    unfold execute_phase2
    rw [hsteps, run_steps, if_pos hop, hrj]
    cases o1 with
    | none => cases o2 <;> rfl
    | some a =>
      cases o2 with
      | none => rfl
      | some b => simp at hdisj
  · intro l r s' res hrj hl hr hexec
    unfold execute_preprocess at hexec
    simp only [hpp] at hexec
    by_cases hemp : (pp.datasource_parents.filterMap (findDS s.db)).isEmpty = true
    · rw [if_pos hemp] at hexec
      exact absurd hexec (by simp)
    · rw [if_neg hemp, if_pos hany] at hexec
      exact join_first_success_inputs hwf hsteps hop hrj hl hr hexec

/-- C4 counterexample to the claim as stated: on the single-parent join
preprocess 5 of the witness state, the spec's per-side precedence resolves
the left input from the explicit request mapping to snapshot 1, but the
engine ignores the mapping (its branch requires two parents) and the
execution consumes the legacy snapshots 2 and 3 instead. -/
theorem C4_single_parent_join_ignores_explicit_map :
    resolve_side ⟨none, some [(0, 1)]⟩ [⟨0, "P", none, none⟩]
      ⟨"join", none, some 2, some 3, none⟩ 0 = some 1 ∧
    (execute_preprocess testModel c4x_state 5 ⟨none, some [(0, 1)]⟩).2 =
      Except.ok (⟨15, 5, [2, 3], 14, [Detail.join 2 3 "inner"]⟩ : ExecutedRead Unit) :=
  ⟨rfl, rfl⟩

/-- Witness for C4: the contract applied to the witness state and the
request with an explicit mapping, with the join resolving to the legacy
snapshots 2 and 3; the first two consumed inputs of the successful
execution read back exactly those snapshots' bytes. -/
theorem C4_join_resolution_precedence_witness :
    ∃ s' res,
      execute_preprocess testModel c4x_state 5 ⟨none, some [(0, 1)]⟩ = (s', Except.ok res) ∧
      ∃ i1 i2 insRest, res.input_snapshots = i1 :: i2 :: insRest ∧
        (findSnap s'.db i1).bind (fun sn => lookupFile s'.files sn.path) =
          view c4x_state 2 ∧
        (findSnap s'.db i2).bind (fun sn => lookupFile s'.files sn.path) =
          view c4x_state 3 := by
  have hc := @C4_join_resolution_precedence Unit Unit testModel c4x_state
    ⟨5, "j", [⟨"join", none, some 2, some 3, none⟩], 6, [0]⟩ ⟨none, some [(0, 1)]⟩
    ⟨"join", none, some 2, some 3, none⟩ [] 5
    ⟨by decide, by decide, by decide, by decide, by decide, by decide⟩
    (by rfl) rfl rfl
  rcases hexec : execute_preprocess testModel c4x_state 5 ⟨none, some [(0, 1)]⟩
    with ⟨s', out⟩
  have hout : out = Except.ok (⟨15, 5, [2, 3], 14, [Detail.join 2 3 "inner"]⟩ :
      ExecutedRead Unit) := by
    have := congrArg Prod.snd hexec
    simp only at this
    rw [show (execute_preprocess testModel c4x_state 5 ⟨none, some [(0, 1)]⟩).2 =
      Except.ok (⟨15, 5, [2, 3], 14, [Detail.join 2 3 "inner"]⟩ : ExecutedRead Unit)
      from rfl] at this
    exact this.symm
  subst hout
  exact ⟨s', _, rfl, hc.2.2 2 3 s' _ (by rfl) (by decide) (by decide) hexec⟩


/-- Bytes addressed by an old snapshot id read back unchanged across any
frame-respecting call. -/
theorem view_stable {s s' : Sys D} (hwf : SysWF s) (hf : Frame s s') {i : Nat}
    (hi : i < s.gen) : view s' i = view s i := by
  unfold view
  rw [hf.findSnap_eq hi]
  cases hfind : findSnap s.db i with
  | none => rfl
  | some sn =>
    simp only [Option.some_bind]
    have hmem : sn ∈ s.db.snapshots := List.mem_of_find?_eq_some hfind
    exact hf.lookupFile_eq (hwf.snaps sn hmem).2

theorem bind_shape_map (m : List (Nat × Nat)) (o : Option DataSource) :
    o.bind (fun p => mapGet m p.id) = (o.map dsShape).bind (fun q => mapGet m q.1) := by
  cases o <;> rfl

theorem bind_shape_active (o : Option DataSource) :
    o.bind (fun p => p.active_snapshot_id) = (o.map dsShape).bind (fun q => q.2.2) := by
  cases o <;> rfl

/-- Join input resolution reads only the identity-relevant shape of the
parent rows (their ids, order and active pointers), never the mutable
schema field. -/
theorem resolve_join_shape_congr {req : ExecuteRequest} {step : Step}
    {parents parents' : List DataSource}
    (h : parents.map dsShape = parents'.map dsShape) :
    resolve_join req parents step = resolve_join req parents' step := by
  have hget : ∀ idx : Nat,
      (parents.get? idx).map dsShape = (parents'.get? idx).map dsShape := by
    intro idx
    rw [← List.get?_map, ← List.get?_map, h]
  have hlen : parents.length = parents'.length := by
    have := congrArg List.length h
    simpa using this
  simp only [resolve_join, bind_shape_map, bind_shape_active, hget 0, hget 1, hlen]

/-- The pure pipeline reads only the shape of the parent rows. -/
theorem pure_pipeline_shape_congr {M : Model Table D} {v : Nat → Option Bytes}
    {req : ExecuteRequest} {parents parents' : List DataSource}
    (h : parents.map dsShape = parents'.map dsShape) :
    ∀ (steps : List Step) (df : Option Table),
      pure_pipeline M v req parents steps df = pure_pipeline M v req parents' steps df := by
  intro steps
  induction steps with
  | nil =>
    intro df
    rfl
  | cons step rest ih =>
    intro df
    unfold pure_pipeline
    by_cases hop : step.op = "join"
    case pos =>
      rw [if_pos hop, if_pos hop, resolve_join_shape_congr h]
      split
      case h_1 lid rid heq =>
        split
        case h_1 lb rb hlb hrb =>
          split
          case h_1 t heqj => exact ih (some t)
          case h_2 e heqj => rfl
        case h_2 hnone => rfl
        case h_3 b hnone => rfl
      case h_2 x heq => rfl
      case h_3 x heq => rfl
    case neg =>
      rw [if_neg hop, if_neg hop]
      split
      case h_1 t d heqs => exact ih (some t)
      case h_2 e heqs => rfl

/-- A whole pure execution reads only the shape of the parent rows. -/
theorem pure_execute_shape_congr {M : Model Table D} {v : Nat → Option Bytes}
    {req : ExecuteRequest} {parents parents' : List DataSource} {steps : List Step}
    (h : parents.map dsShape = parents'.map dsShape) :
    pure_execute M v req parents steps = pure_execute M v req parents' steps := by
  unfold pure_execute
  simp only [pure_pipeline_shape_congr h]

/-- The pure pipeline reads the view only at ids below the bound (the
resolved join inputs), so two views agreeing below the bound give the same
pipeline result. -/
theorem pure_pipeline_view_congr {M : Model Table D} {req : ExecuteRequest}
    {parents : List DataSource} {v v2 : Nat → Option Bytes} {B : Nat}
    (hv : ∀ i, i < B → v i = v2 i) (hreq : ReqWF B req) (hpar : ParentsBound B parents) :
    ∀ (steps : List Step) (df : Option Table), StepsBound B steps →
      pure_pipeline M v req parents steps df = pure_pipeline M v2 req parents steps df := by
  intro steps
  induction steps with
  | nil =>
    intro df hsb
    rfl
  | cons step rest ih =>
    intro df hsb
    have hsbr : StepsBound B rest := fun st hst => hsb st (List.mem_cons_of_mem _ hst)
    have hsbs := hsb step (List.mem_cons_self _ _)
    unfold pure_pipeline
    by_cases hop : step.op = "join"
    case pos =>
      rw [if_pos hop, if_pos hop]
      have hbound := resolve_join_bound hreq hpar hsbs.1 hsbs.2
      split
      case h_1 lid rid heq =>
        have hlid : lid < B := hbound.1 lid (by rw [heq])
        have hrid : rid < B := hbound.2 rid (by rw [heq])
        rw [hv lid hlid, hv rid hrid]
        split
        case h_1 lb rb hlb hrb =>
          split
          case h_1 t heqj => exact ih (some t) hsbr
          case h_2 e heqj => rfl
        case h_2 hnone => rfl
        case h_3 b hnone => rfl
      case h_2 x heq => rfl
      case h_3 x heq => rfl
    case neg =>
      rw [if_neg hop, if_neg hop]
      split
      case h_1 t d heqs => exact ih (some t) hsbr
      case h_2 e heqs => rfl

/-- A whole pure execution reads the view only at ids below the bound. -/
theorem pure_execute_view_congr {M : Model Table D} {req : ExecuteRequest}
    {parents : List DataSource} {steps : List Step} {v v2 : Nat → Option Bytes} {B : Nat}
    (hv : ∀ i, i < B → v i = v2 i) (hreq : ReqWF B req) (hpar : ParentsBound B parents)
    (hsb : StepsBound B steps) :
    pure_execute M v req parents steps = pure_execute M v2 req parents steps := by
  unfold pure_execute
  by_cases hj : steps.any (fun st => st.op == "join") = true
  case pos =>
    rw [if_pos hj, if_pos hj, pure_pipeline_view_congr hv hreq hpar steps none hsb]
  case neg =>
    rw [if_neg hj, if_neg hj]
    split
    case h_1 hs => rfl
    case h_2 sid hs =>
      rw [hv sid (hreq.sid sid hs)]
      split
      case h_1 hnone => rfl
      case h_2 b hb =>
        rw [pure_pipeline_view_congr hv hreq hpar steps (some (M.read_csv b)) hsb]


/-- The step loop computes (on success) exactly the pure pipeline over the
pre-call view: the running dataframe depends only on the bytes addressed by
the resolved input ids and on the step configuration. -/
theorem rs_pure {M : Model Table D} {req : ExecuteRequest} {parents : List DataSource}
    {s : Sys D} (hwf : SysWF s) (hreq : ReqWF s.gen req)
    (hpar : ParentsBound s.gen parents) :
    ∀ {steps : List Step} {st st2 : Sys D} {df dfF : Option Table}
      {det det2 : List (Detail D)} {ins ins2 : List Snapshot},
      StepsBound s.gen steps → Extends s st →
      run_steps M req parents steps st df det ins = (st2, .ok (dfF, det2, ins2)) →
      pure_pipeline M (view s) req parents steps df = .ok dfF := by
  intro steps
  induction steps with
  | nil =>
    intro st st2 df dfF det det2 ins ins2 hsb hext h
    rw [run_steps] at h
    simp only [Prod.mk.injEq, Except.ok.injEq] at h
    obtain ⟨-, hdf, -, -⟩ := h
    rw [pure_pipeline, hdf]
  | cons step rest ih =>
    intro st st2 df dfF det det2 ins ins2 hsb hext h
    have hsbr : StepsBound s.gen rest := fun t ht => hsb t (List.mem_cons_of_mem _ ht)
    have hsbs := hsb step (List.mem_cons_self _ _)
    rw [run_steps] at h
    rw [pure_pipeline]
    by_cases hop : step.op = "join"
    case pos =>
      rw [if_pos hop] at h
      rw [if_pos hop]
      split at h
      case h_2 x hres2 => exact absurd h (by simp)
      case h_3 x hres2 => exact absurd h (by simp)
      case h_1 lid rid hres2 =>
        have hbound := resolve_join_bound hreq hpar hsbs.1 hsbs.2
        have hlid : lid < s.gen := hbound.1 lid (by rw [hres2])
        have hrid : rid < s.gen := hbound.2 rid (by rw [hres2])
        split at h
        case h_2 hnone => exact absurd h (by simp)
        case h_3 x hnone => exact absurd h (by simp)
        case h_1 ls rs hls hrs =>
          split at h
          case h_2 st1 e hmc1 => exact absurd h (by simp)
          case h_1 st1 ls2 hmc1 =>
            split at h
            case h_2 stB e hmc2 => exact absurd h (by simp)
            case h_1 stB rs2 hmc2 =>
              split at h
              case h_2 hnone => exact absurd h (by simp)
              case h_3 b hnone => exact absurd h (by simp)
              case h_1 lb rb hlb hrb =>
                have hlsS : findSnap s.db lid = some ls := by
                  rw [← hext.toFrame.findSnap_eq hlid]
                  exact hls
                have hrsS : findSnap s.db rid = some rs := by
                  rw [← hext.toFrame.findSnap_eq hrid]
                  exact hrs
                have hext1 : Extends s st1 := hext.extends_trans (mcs_extends hmc1)
                have hextB : Extends st1 stB := mcs_extends hmc2
                have hc1 := mcs_consumed_content hwf hext hlsS hlid hmc1
                have hc2 := mcs_consumed_content hwf hext1 hrsS hrid hmc2
                have hvl : view s lid = some lb := by
                  rw [← hc1.2.2.2, ← hextB.toFrame.lookupFile_eq hc1.2.2.1]
                  exact hlb
                have hvr : view s rid = some rb := by
                  rw [← hc2.2.2.2]
                  exact hrb
                split at h
                case h_2 e hj => exact absurd h (by simp)
                case h_1 t hj =>
                  split
                  case h_2 hnone2 =>
                    rw [hvl] at hnone2
                    simp at hnone2
                  case h_3 b2 hb2 hnone2 =>
                    rw [hvr] at hnone2
                    simp at hnone2
                  case h_1 lb2 rb2 hlb2 hrb2 =>
                    rw [hvl] at hlb2
                    rw [hvr] at hrb2
                    simp only [Option.some.injEq] at hlb2 hrb2
                    subst hlb2
                    subst hrb2
                    split
                    case h_2 e2 hj2 =>
                      rw [hj] at hj2
                      simp at hj2
                    case h_1 t2 hj2 =>
                      rw [hj] at hj2
                      simp only [Except.ok.injEq] at hj2
                      subst hj2
                      exact ih hsbr (hext1.extends_trans hextB) h
    case neg =>
      rw [if_neg hop] at h
      rw [if_neg hop]
      split at h
      case h_2 e happ => exact absurd h (by simp)
      case h_1 t d happ =>
        exact ih hsbr hext h

/-- A successful step-loop-and-commit phase computes the pure pipeline on
the pre-call view and publishes its serialized output under the fresh
output snapshot id, which is fresh and below the post-call generator. -/
theorem phase2_pure {M : Model Table D} {s st1 s' : Sys D} {pp : Preprocess}
    {req : ExecuteRequest} {df0 : Option Table} {ins0 : List Snapshot}
    {res : ExecutedRead D}
    (hwf : SysWF s) (hreq : ReqWF s.gen req) (hppmem : pp ∈ s.db.preprocesses)
    (hext : Extends s st1)
    (h : execute_phase2 M s pp req st1 df0 ins0 = (s', .ok res)) :
    ∃ t, pure_pipeline M (view s) req (pp.datasource_parents.filterMap (findDS s.db))
        pp.steps df0 = .ok (some t) ∧
      view s' res.output_snapshot = some (M.to_csv t) ∧
      s.gen ≤ res.id ∧ res.id < s'.gen ∧
      s.gen ≤ res.output_snapshot ∧ res.output_snapshot < s'.gen := by
  have hpar := parents_bound_of_wf hwf pp.datasource_parents
  have hsb := steps_bound_of_wf hwf hppmem
  unfold execute_phase2 at h
  split at h
  case h_1 st2 e hrun => exact absurd h (by simp)
  case h_2 st2 dfF details inputs hrun =>
    have hpure := rs_pure hwf hreq hpar hsb hext hrun
    have hext2 : Extends s st2 := hext.extends_trans (rs_extends hrun)
    have hwf2 : SysWF st2 := hwf.of_extends hext2
    split at h
    case h_1 => exact absurd h (by simp)
    case h_2 t =>
      split at h
      case h_1 hchild => exact absurd h (by simp)
      case h_2 child hchild =>
        split at h
        case isFalse hw => exact absurd h (by simp)
        case isTrue hw =>
          cases h
          refine ⟨t, hpure, ?_, ?_, ?_, ?_, ?_⟩
          · show (findSnap (addExec (addSnap (setSchema st2.db child.id (M.infer_schema t))
                ⟨st2.gen + 1, child.id, st2.gen⟩)
                ⟨st2.gen + 2, pp.id, details, inputs.map (fun i => i.id) ++ [st2.gen + 1]⟩)
              (st2.gen + 1)).bind
                (fun sn => lookupFile (st2.files ++ [(st2.gen, M.to_csv t)]) sn.path) =
              some (M.to_csv t)
            have hfind : findSnap (addExec (addSnap (setSchema st2.db child.id
                  (M.infer_schema t)) ⟨st2.gen + 1, child.id, st2.gen⟩)
                  ⟨st2.gen + 2, pp.id, details, inputs.map (fun i => i.id) ++ [st2.gen + 1]⟩)
                (st2.gen + 1) = some ⟨st2.gen + 1, child.id, st2.gen⟩ := by
              show findSnap (addSnap (setSchema st2.db child.id (M.infer_schema t))
                ⟨st2.gen + 1, child.id, st2.gen⟩) (st2.gen + 1) = some ⟨st2.gen + 1, child.id, st2.gen⟩
              exact findSnap_snoc_fresh (fun sn hsn => by
                have hmem2 : sn ∈ st2.db.snapshots := hsn
                have hb := (hwf2.snaps sn hmem2).1
                show sn.id ≠ st2.gen + 1
                omega)
            rw [hfind]
            simp only [Option.some_bind]
            show lookupFile (st2.files ++ [(st2.gen, M.to_csv t)]) st2.gen = some (M.to_csv t)
            exact lookupFile_snoc_fresh hwf2.fs
          · show s.gen ≤ st2.gen + 2
            have := hext2.gen_le
            omega
          · show st2.gen + 2 < st2.gen + 3
            omega
          · show s.gen ≤ st2.gen + 1
            have := hext2.gen_le
            omega
          · show st2.gen + 1 < st2.gen + 3
            omega

/-- A successful execution computes the pure execution function on the
pre-call view, publishes its output bytes under the fresh output snapshot
id, and both recorded ids are fresh and below the post-call generator. -/
theorem exec_pure {M : Model Table D} {s s' : Sys D} {pp_id : Nat} {req : ExecuteRequest}
    {res : ExecutedRead D} {pp : Preprocess}
    (hwf : SysWF s) (hreq : ReqWF s.gen req) (hpp : findPP s.db pp_id = some pp)
    (h : execute_preprocess M s pp_id req = (s', .ok res)) :
    ∃ b, pure_execute M (view s) req (pp.datasource_parents.filterMap (findDS s.db))
        pp.steps = .ok b ∧
      view s' res.output_snapshot = some b ∧
      s.gen ≤ res.id ∧ res.id < s'.gen ∧
      s.gen ≤ res.output_snapshot ∧ res.output_snapshot < s'.gen := by
  have hppmem : pp ∈ s.db.preprocesses := List.mem_of_find?_eq_some hpp
  unfold execute_preprocess at h
  simp only [hpp] at h
  by_cases hemp : (pp.datasource_parents.filterMap (findDS s.db)).isEmpty = true
  case pos =>
    rw [if_pos hemp] at h
    exact absurd h (by simp)
  case neg =>
    rw [if_neg hemp] at h
    by_cases hj : pp.steps.any (fun st => st.op == "join") = true
    case pos =>
      rw [if_pos hj] at h
      obtain ⟨t, hpure, hview, hb1, hb2, hb3, hb4⟩ :=
        phase2_pure hwf hreq hppmem (Extends.extends_refl s) h
      refine ⟨M.to_csv t, ?_, hview, hb1, hb2, hb3, hb4⟩
      unfold pure_execute
      rw [if_pos hj]
      simp only [hpure]
    case neg =>
      rw [if_neg hj] at h
      split at h
      case h_1 hsid => exact absurd h (by simp)
      case h_2 sid hsid =>
        split at h
        case h_1 horig => exact absurd h (by simp)
        case h_2 orig horig =>
          split at h
          case h_2 st1 e hmc => exact absurd h (by simp)
          case h_1 st1 snapToUse hmc =>
            split at h
            case h_1 hcont => exact absurd h (by simp)
            case h_2 content hcont =>
              have hext1 : Extends s st1 := mcs_extends hmc
              have hsidlt : sid < s.gen := hreq.sid sid hsid
              have hcc := (mcs_consumed_content hwf (Extends.extends_refl s) horig hsidlt hmc).2.2.2
              have hvs : view s sid = some content := by
                rw [← hcc]
                exact hcont
              obtain ⟨t, hpure, hview, hb1, hb2, hb3, hb4⟩ :=
                phase2_pure hwf hreq hppmem hext1 h
              refine ⟨M.to_csv t, ?_, hview, hb1, hb2, hb3, hb4⟩
              unfold pure_execute
              rw [if_neg hj]
              simp only [hsid, hvs, hpure]

/-- The shape of the resolvable parent rows is stable across any
frame-respecting call. -/
theorem filterMap_findDS_shape {s s' : Sys D} (hf : Frame s s') (l : List Nat) :
    (l.filterMap (findDS s'.db)).map dsShape = (l.filterMap (findDS s.db)).map dsShape := by
  induction l with
  | nil => rfl
  | cons i rest ih =>
    have hsh := hf.findDS_shape i
    cases h1 : findDS s'.db i with
    | none =>
      cases h2 : findDS s.db i with
      | none => simpa [List.filterMap_cons, h1, h2] using ih
      | some d2 =>
        rw [h1, h2] at hsh
        simp at hsh
    | some d1 =>
      cases h2 : findDS s.db i with
      | none =>
        rw [h1, h2] at hsh
        simp at hsh
      | some d2 =>
        rw [h1, h2] at hsh
        simp only [Option.map_some', Option.some.injEq] at hsh
        simp only [List.filterMap_cons, h1, h2, List.map_cons, ih, hsh]


/-- C2.  Reproducibility of execute: running the same request twice in a
row on a well-formed state (both runs succeeding) records two distinct
ExecutedPreprocess ids and two distinct output Snapshot ids, while the
byte content published under the two output snapshot ids is identical
(and present).  The two runs resolve the same input bytes because the
engine draws fresh ids for everything it writes: the resolved ids are ids
the first state already held, and their bytes and the parents' shape are
stable across the first call. -/
theorem C2_execute_reproducibility {M : Model Table D} {s s1 s2 : Sys D} {pp_id : Nat}
    {req : ExecuteRequest} {r1 r2 : ExecutedRead D}
    (hwf : SysWF s) (hreq : ReqWF s.gen req)
    (h1 : execute_preprocess M s pp_id req = (s1, .ok r1))
    (h2 : execute_preprocess M s1 pp_id req = (s2, .ok r2)) :
    r1.id ≠ r2.id ∧ r1.output_snapshot ≠ r2.output_snapshot ∧
    view s2 r1.output_snapshot = view s2 r2.output_snapshot ∧
    (view s2 r2.output_snapshot).isSome = true := by
  rcases hpp0 : findPP s.db pp_id with _ | pp
  · unfold execute_preprocess at h1
    simp only [hpp0] at h1
    simp at h1
  · have hppmem : pp ∈ s.db.preprocesses := List.mem_of_find?_eq_some hpp0
    have hfr1 : Frame s s1 := exec_frame h1
    have hwf1 : SysWF s1 := hwf.of_frame hfr1
    have hreq1 : ReqWF s1.gen req :=
      ⟨fun v hv => lt_of_lt_of_le (hreq.sid v hv) hfr1.gen_le,
       fun m hm e he => lt_of_lt_of_le (hreq.map m hm e he) hfr1.gen_le⟩
    have hpp1 : findPP s1.db pp_id = some pp := by
      rw [hfr1.findPP_eq]
      exact hpp0
    obtain ⟨b1, hp1, hv1, ha1, hb1, hc1, hd1⟩ := exec_pure hwf hreq hpp0 h1
    obtain ⟨b2, hp2, hv2, ha2, hb2, hc2, hd2⟩ := exec_pure hwf1 hreq1 hpp1 h2
    have hfr2 : Frame s1 s2 := exec_frame h2
    have hpar := parents_bound_of_wf hwf pp.datasource_parents
    have hsb := steps_bound_of_wf hwf hppmem
    have hshape : (pp.datasource_parents.filterMap (findDS s1.db)).map dsShape =
        (pp.datasource_parents.filterMap (findDS s.db)).map dsShape :=
      filterMap_findDS_shape hfr1 pp.datasource_parents
    have hv : ∀ i, i < s.gen → view s1 i = view s i := fun i hi => view_stable hwf hfr1 hi
    have hb12 : b1 = b2 := by
      rw [pure_execute_shape_congr hshape] at hp2
      rw [pure_execute_view_congr hv hreq hpar hsb] at hp2
      rw [hp1] at hp2
      simp only [Except.ok.injEq] at hp2
      exact hp2
    refine ⟨?_, ?_, ?_, ?_⟩
    · have := hb1
      have := ha2
      omega
    · have := hd1
      have := hc2
      omega
    · have hstab : view s2 r1.output_snapshot = view s1 r1.output_snapshot :=
        view_stable hwf1 hfr2 hd1
      rw [hstab, hv1, hv2, hb12]
    · rw [hv2]
      rfl

/-- Witness for C2: two successive executions of the stepless preprocess
on the concrete witness state yield executions 7 and 10 with output
snapshots 6 and 9, whose published bytes coincide. -/
theorem C2_execute_reproducibility_witness :
    ∃ s1 r1 s2 r2,
      execute_preprocess testModel c3x_state 1 ⟨some 3, none⟩ = (s1, Except.ok r1) ∧
      execute_preprocess testModel s1 1 ⟨some 3, none⟩ = (s2, Except.ok r2) ∧
      r1.id ≠ r2.id ∧ r1.output_snapshot ≠ r2.output_snapshot ∧
      view s2 r1.output_snapshot = view s2 r2.output_snapshot ∧
      (view s2 r2.output_snapshot).isSome = true := by
  have hwf : SysWF c3x_state :=
    ⟨by decide, by decide, by decide, by decide, by decide, by decide⟩
  have hreq : ReqWF c3x_state.gen ⟨some 3, none⟩ :=
    ⟨fun v hv => by
        simp only [Option.some.injEq] at hv
        subst hv
        decide,
     fun m hm => by simp at hm⟩
  have h1 : execute_preprocess testModel c3x_state 1 ⟨some 3, none⟩ =
      ((execute_preprocess testModel c3x_state 1 ⟨some 3, none⟩).1,
        Except.ok (⟨7, 1, [3], 6, []⟩ : ExecutedRead Unit)) := by
    have h2nd : (execute_preprocess testModel c3x_state 1 ⟨some 3, none⟩).2 =
        Except.ok (⟨7, 1, [3], 6, []⟩ : ExecutedRead Unit) := by rfl
    exact Prod.ext rfl h2nd
  have h2 : execute_preprocess testModel
      (execute_preprocess testModel c3x_state 1 ⟨some 3, none⟩).1 1 ⟨some 3, none⟩ =
      ((execute_preprocess testModel
        (execute_preprocess testModel c3x_state 1 ⟨some 3, none⟩).1 1 ⟨some 3, none⟩).1,
        Except.ok (⟨10, 1, [3], 9, []⟩ : ExecutedRead Unit)) := by
    have h2nd : (execute_preprocess testModel
        (execute_preprocess testModel c3x_state 1 ⟨some 3, none⟩).1 1 ⟨some 3, none⟩).2 =
        Except.ok (⟨10, 1, [3], 9, []⟩ : ExecutedRead Unit) := by rfl
    exact Prod.ext rfl h2nd
  have hmain := C2_execute_reproducibility hwf hreq h1 h2
  exact ⟨_, _, _, _, h1, h2, hmain.1, hmain.2.1, hmain.2.2.1, hmain.2.2.2⟩


theorem mapGet_cons (k v t : Nat) (m : Memo) :
    mapGet ((k, v) :: m) t = if k = t then some v else mapGet m t := by
  by_cases h : k = t
  · subst h
    unfold mapGet
    rw [List.find?_cons_of_pos m (by simp)]
    simp
  · unfold mapGet
    rw [List.find?_cons_of_neg m (by simpa using h)]
    rw [if_neg h]

theorem newly_cons {memo : Memo} {k w t : Nat}
    (h : NewlyMemoized memo ((k, w) :: memo) t) : t = k := by
  obtain ⟨h0, h1⟩ := h
  rw [mapGet_cons] at h1
  by_cases hk : k = t
  · exact hk.symm
  · rw [if_neg hk, h0] at h1
    simp at h1

theorem newly_split (m1 : Memo) {m m2 : Memo} {t : Nat}
    (hN : NewlyMemoized m m2 t) :
    NewlyMemoized m m1 t ∨ NewlyMemoized m1 m2 t := by
  obtain ⟨h0, h2⟩ := hN
  cases hc : mapGet m1 t with
  | none => exact Or.inr ⟨hc, h2⟩
  | some w => exact Or.inl ⟨h0, by rw [hc]; rfl⟩

theorem producing_frame {s s2 : Sys D} (hf : Frame s s2) (t : Nat) :
    producing s2.db t = producing s.db t := by
  unfold producing
  rw [hf.pp_eq]

theorem rankok_frame {s s2 : Sys D} {rank : Nat → Nat} (hf : Frame s s2)
    (hr : RankOK s.db rank) : RankOK s2.db rank := by
  intro c pp hc
  rw [producing_frame hf] at hc
  exact hr c pp hc

theorem producing_inj {db : DB D}
    (hnodup : (db.preprocesses.map (fun p => p.id)).Nodup)
    {t1 t2 : Nat} {p1 p2 : Preprocess}
    (h1 : producing db t1 = some p1) (h2 : producing db t2 = some p2)
    (hid : p1.id = p2.id) : t1 = t2 := by
  have hm1 := List.mem_of_find?_eq_some h1
  have hm2 := List.mem_of_find?_eq_some h2
  have hc1 : p1.datasource_child_id = t1 := by simpa using List.find?_some h1
  have hc2 : p2.datasource_child_id = t2 := by simpa using List.find?_some h2
  have hpp : p1 = p2 := List.inj_on_of_nodup_map hnodup hm1 hm2 hid
  rw [← hc1, ← hc2, hpp]

theorem matCountInv_refl (s : Sys D) (memo : Memo) : MatCountInv s memo s memo := by
  refine ⟨fun pid => le_rfl, fun t h => h, fun pid => ⟨Nat.le_succ _, ?_⟩, ?_⟩
  · intro hlt
    exact absurd hlt (lt_irrefl _)
  · intro t pp hN hp
    obtain ⟨h0, h1⟩ := hN
    rw [h0] at h1
    simp at h1

theorem matCountInv_trans {s s1 s2 : Sys D} {m m1 m2 : Memo}
    (hwf : SysWF s) (hfr1 : Frame s s1)
    (h1 : MatCountInv s m s1 m1) (h2 : MatCountInv s1 m1 s2 m2) :
    MatCountInv s m s2 m2 := by
  obtain ⟨mono1, pres1, cnt1, low1⟩ := h1
  obtain ⟨mono2, pres2, cnt2, low2⟩ := h2
  refine ⟨fun pid => le_trans (mono1 pid) (mono2 pid),
    fun t ht => pres2 t (pres1 t ht), ?_, ?_⟩
  · intro pid
    obtain ⟨u1, i1⟩ := cnt1 pid
    obtain ⟨u2, i2⟩ := cnt2 pid
    constructor
    · by_cases hc : execCount s pid < execCount s1 pid
      · by_cases hc2 : execCount s1 pid < execCount s2 pid
        · obtain ⟨t, pp, hpt, hid, hNt⟩ := i1 hc
          obtain ⟨t2, pp2, hpt2, hid2, hNt2⟩ := i2 hc2
          rw [producing_frame hfr1] at hpt2
          have ht12 : t2 = t := producing_inj hwf.ppNodup hpt2 hpt (by rw [hid2, hid])
          subst ht12
          have hcontra := hNt.2
          rw [hNt2.1] at hcontra
          simp at hcontra
        · omega
      · omega
    · intro hlt
      by_cases hc : execCount s pid < execCount s1 pid
      · obtain ⟨t, pp, hpt, hid, hNt⟩ := i1 hc
        exact ⟨t, pp, hpt, hid, hNt.1, pres2 t hNt.2⟩
      · have hc2 : execCount s1 pid < execCount s2 pid := by
          have := mono1 pid
          omega
        obtain ⟨t2, pp2, hpt2, hid2, hNt2⟩ := i2 hc2
        rw [producing_frame hfr1] at hpt2
        refine ⟨t2, pp2, hpt2, hid2, ?_, hNt2.2⟩
        cases hcm : mapGet m t2 with
        | none => rfl
        | some w =>
          have hsome : (mapGet m1 t2).isSome = true := pres1 t2 (by rw [hcm]; rfl)
          rw [hNt2.1] at hsome
          simp at hsome
  · intro t pp hN hpt
    rcases newly_split m1 hN with hA | hB
    · exact lt_of_lt_of_le (low1 t pp hA hpt) (mono2 pp.id)
    · have hpt1 : producing s1.db t = some pp := by
        rw [producing_frame hfr1]
        exact hpt
      exact lt_of_le_of_lt (mono1 pp.id) (low2 t pp hB hpt1)

/-- A successful step-loop-and-commit phase appends exactly one execution
row, carrying the executed preprocess id. -/
theorem phase2_success_execs {M : Model Table D} {s st1 s' : Sys D} {pp : Preprocess}
    {req : ExecuteRequest} {df0 : Option Table} {ins0 : List Snapshot}
    {res : ExecutedRead D} (hext : Extends s st1)
    (h : execute_phase2 M s pp req st1 df0 ins0 = (s', .ok res)) :
    ∃ eid dets snapids,
      s'.db.executions = s.db.executions ++
        [(⟨eid, pp.id, dets, snapids⟩ : ExecutedPreprocess D)] := by
  unfold execute_phase2 at h
  split at h
  case h_1 st2 e hrun => exact absurd h (by simp)
  case h_2 st2 dfF details inputs hrun =>
    have hex2 : st2.db.executions = s.db.executions := (hext.extends_trans (rs_extends hrun)).ex_eq
    split at h
    case h_1 => exact absurd h (by simp)
    case h_2 t =>
      split at h
      case h_1 hchild => exact absurd h (by simp)
      case h_2 child hchild =>
        split at h
        case isFalse hw => exact absurd h (by simp)
        case isTrue hw =>
          cases h
          refine ⟨st2.gen + 2, details, inputs.map (fun i => i.id) ++ [st2.gen + 1], ?_⟩
          show st2.db.executions ++ [_] = _
          rw [hex2]

/-- A successful execution appends exactly one execution row, carrying the
executed preprocess id. -/
theorem exec_success_execs {M : Model Table D} {s s' : Sys D} {pp_id : Nat}
    {req : ExecuteRequest} {res : ExecutedRead D}
    (h : execute_preprocess M s pp_id req = (s', .ok res)) :
    ∃ e : ExecutedPreprocess D, e.preprocess_id = pp_id ∧
      s'.db.executions = s.db.executions ++ [e] := by
  unfold execute_preprocess at h
  split at h
  case h_1 hpp => exact absurd h (by simp)
  case h_2 pp hpp =>
    have hppid : pp.id = pp_id := by simpa using List.find?_some hpp
    split at h
    case isTrue hemp => exact absurd h (by simp)
    case isFalse hemp =>
      split at h
      case isTrue hjoin =>
        obtain ⟨eid, dets, snapids, hex⟩ := phase2_success_execs (Extends.extends_refl s) h
        exact ⟨⟨eid, pp.id, dets, snapids⟩, hppid, hex⟩
      case isFalse hjoin =>
        split at h
        case h_1 hsid => exact absurd h (by simp)
        case h_2 sid hsid =>
          split at h
          case h_1 horig => exact absurd h (by simp)
          case h_2 orig horig =>
            split at h
            case h_2 st1 e hmc => exact absurd h (by simp)
            case h_1 st1 snapToUse hmc =>
              split at h
              case h_1 hcont => exact absurd h (by simp)
              case h_2 content hcont =>
                obtain ⟨eid, dets, snapids, hex⟩ :=
                  phase2_success_execs (mcs_extends hmc) h
                exact ⟨⟨eid, pp.id, dets, snapids⟩, hppid, hex⟩

theorem execCount_exec_success {M : Model Table D} {s s' : Sys D} {pp_id : Nat}
    {req : ExecuteRequest} {res : ExecutedRead D}
    (h : execute_preprocess M s pp_id req = (s', .ok res)) :
    ∀ pid, execCount s' pid = execCount s pid + (if pp_id = pid then 1 else 0) := by
  obtain ⟨e, hpid, hex⟩ := exec_success_execs h
  intro pid
  unfold execCount
  rw [hex, List.countP_append]
  simp only [List.countP_cons, List.countP_nil, hpid]
  by_cases hp : pp_id = pid <;> simp [hp]


/-- The master memoization invariant of the materializer, proven for the
mutual recursion by fuel induction: any successful call preserves the
execution-count bookkeeping, and every datasource it newly memoizes ranks
no higher than the call target (respectively than some listed parent). -/
theorem mts_count (M : Model Table D) (rank : Nat → Nat) :
    ∀ f : Nat,
    (∀ (s : Sys D) (memo : Memo) (target : Nat) (s' : Sys D) (memo' : Memo) (v : Nat),
      SysWF s → RankOK s.db rank →
      materialize_to_snapshot M f s memo target = (s', .ok (memo', v)) →
      MatCountInv s memo s' memo' ∧
      ∀ t, NewlyMemoized memo memo' t → rank t ≤ rank target) ∧
    (∀ (ps : List DataSource) (s : Sys D) (memo : Memo) (s' : Sys D) (memo' : Memo)
      (mp : List (Nat × Nat)),
      SysWF s → RankOK s.db rank →
      materialize_parents M f s memo ps = (s', .ok (memo', mp)) →
      MatCountInv s memo s' memo' ∧
      ∀ t, NewlyMemoized memo memo' t → ∃ p ∈ ps, rank t ≤ rank p.id) := by
  intro f
  induction f with
  | zero =>
    constructor
    · intro s memo target s' memo' v hwf hrank h
      unfold materialize_to_snapshot at h
      exact absurd h (by simp)
    · intro ps
      cases ps with
      | nil =>
        intro s memo s' memo' mp hwf hrank h
        unfold materialize_parents at h
        simp only [Prod.mk.injEq, Except.ok.injEq] at h
        obtain ⟨h1, h2, h3⟩ := h
        subst h1
        subst h2
        refine ⟨matCountInv_refl s memo, ?_⟩
        intro t hN
        obtain ⟨h0, hs⟩ := hN
        rw [h0] at hs
        simp at hs
      | cons p ps =>
        intro s memo s' memo' mp hwf hrank h
        unfold materialize_parents at h
        split at h
        case h_1 s1 e hmts =>
          exact absurd h (by simp)
        case h_2 s1 memo1 v1 hmts =>
          unfold materialize_to_snapshot at hmts
          exact absurd hmts (by simp)
  | succ f ihf =>
    have P1 : ∀ (s : Sys D) (memo : Memo) (target : Nat) (s' : Sys D) (memo' : Memo)
        (v : Nat),
        SysWF s → RankOK s.db rank →
        materialize_to_snapshot M (f + 1) s memo target = (s', .ok (memo', v)) →
        MatCountInv s memo s' memo' ∧
        ∀ t, NewlyMemoized memo memo' t → rank t ≤ rank target := by
      intro s memo target s' memo' v hwf hrank h
      unfold materialize_to_snapshot at h
      split at h
      case h_1 v0 hmemo =>
        simp only [Prod.mk.injEq, Except.ok.injEq] at h
        obtain ⟨h1, h2, h3⟩ := h
        subst h1
        subst h2
        refine ⟨matCountInv_refl s memo, ?_⟩
        intro t hN
        obtain ⟨h0, hs⟩ := hN
        rw [h0] at hs
        simp at hs
      case h_2 hmemo =>
        split at h
        case h_1 hprod =>
          split at h
          case h_1 hds => exact absurd h (by simp)
          case h_2 ds hds =>
            split at h
            case h_1 hact => exact absurd h (by simp)
            case h_2 a hact =>
              simp only [Prod.mk.injEq, Except.ok.injEq] at h
              obtain ⟨h1, h2, h3⟩ := h
              subst h1
              subst h2
              refine ⟨⟨fun pid => le_rfl, ?_, fun pid => ⟨Nat.le_succ _, ?_⟩, ?_⟩, ?_⟩
              · intro t ht
                rw [mapGet_cons]
                by_cases hk : target = t
                · simp [hk]
                · rw [if_neg hk]
                  exact ht
              · intro hlt
                exact absurd hlt (lt_irrefl _)
              · intro t pp hN hpt
                have ht := newly_cons hN
                subst ht
                rw [hprod] at hpt
                exact absurd hpt (by simp)
              · intro t hN
                have ht := newly_cons hN
                subst ht
                exact le_rfl
        case h_2 pp hprod =>
          have hppmem : pp ∈ s.db.preprocesses := List.mem_of_find?_eq_some hprod
          split at h
          case isTrue hemp => exact absurd h (by simp)
          case isFalse hemp =>
            split at h
            case isTrue hjoin =>
              split at h
              case h_1 s1 e hmtp => exact absurd h (by simp)
              case h_2 s1 memo1 mapping hmtp =>
                split at h
                case h_1 s2 e hex => exact absurd h (by simp)
                case h_2 s2 r hex =>
                  simp only [Prod.mk.injEq, Except.ok.injEq] at h
                  obtain ⟨h1, h2, h3⟩ := h
                  subst h1
                  subst h2
                  subst h3
                  have hfr1 : Frame s s1 :=
                    matp_frame_of f (fun sa ma ta sb rb hb =>
                      mat_frame f sa ma ta sb rb hb) _ _ _ _ _ hmtp
                  obtain ⟨hinv1, hrank1⟩ := ihf.2 _ _ _ _ _ _ hwf hrank hmtp
                  have hparlt : ∀ p ∈ pp.datasource_parents.filterMap (findDS s.db),
                      rank p.id < rank target := by
                    intro p hp
                    obtain ⟨pid0, hpid0, hfind⟩ := List.mem_filterMap.mp hp
                    have hpid : p.id = pid0 := by simpa using List.find?_some hfind
                    rw [hpid]
                    exact hrank target pp hprod pid0 hpid0
                  have hm1target : mapGet memo1 target = none := by
                    cases hc : mapGet memo1 target with
                    | none => rfl
                    | some w =>
                      have hN : NewlyMemoized memo memo1 target :=
                        ⟨hmemo, by rw [hc]; rfl⟩
                      obtain ⟨p, hp, hle⟩ := hrank1 target hN
                      have := hparlt p hp
                      omega
                  have hcnt := execCount_exec_success hex
                  have hprod1 : producing s1.db target = some pp := by
                    rw [producing_frame hfr1]
                    exact hprod
                  have hinv2 : MatCountInv s1 memo1 s2
                      ((target, r.output_snapshot) :: memo1) := by
                    refine ⟨?_, ?_, ?_, ?_⟩
                    · intro pid
                      rw [hcnt pid]
                      exact Nat.le_add_right _ _
                    · intro t ht
                      rw [mapGet_cons]
                      by_cases hk : target = t
                      · simp [hk]
                      · rw [if_neg hk]
                        exact ht
                    · intro pid
                      constructor
                      · rw [hcnt pid]
                        by_cases hp : pp.id = pid <;> simp [hp]
                      · intro hlt
                        rw [hcnt pid] at hlt
                        by_cases hp : pp.id = pid
                        · refine ⟨target, pp, hprod1, hp, hm1target, ?_⟩
                          rw [mapGet_cons]
                          simp
                        · rw [if_neg hp] at hlt
                          omega
                    · intro t pp2 hN hpt
                      have ht := newly_cons hN
                      subst ht
                      rw [hprod1] at hpt
                      have hpp2 : pp2 = pp := by
                        simpa using hpt.symm
                      subst hpp2
                      rw [hcnt pp2.id, if_pos rfl]
                      omega
                  refine ⟨matCountInv_trans hwf hfr1 hinv1 hinv2, ?_⟩
                  intro t hN
                  rcases newly_split memo1 hN with hA | hB
                  · obtain ⟨p, hp, hle⟩ := hrank1 t hA
                    have := hparlt p hp
                    omega
                  · have ht := newly_cons hB
                    subst ht
                    exact le_rfl
            case isFalse hjoin =>
              split at h
              case h_1 hnil => exact absurd h (by simp)
              case h_2 p0 rest0 hcons =>
                split at h
                case h_1 s1 e hmts => exact absurd h (by simp)
                case h_2 s1 memo1 psnap hmts =>
                  split at h
                  case h_1 s2 e hex => exact absurd h (by simp)
                  case h_2 s2 r hex =>
                    simp only [Prod.mk.injEq, Except.ok.injEq] at h
                    obtain ⟨h1, h2, h3⟩ := h
                    subst h1
                    subst h2
                    subst h3
                    have hfr1 : Frame s s1 := mat_frame f _ _ _ _ _ hmts
                    obtain ⟨hinv1, hrank1⟩ := ihf.1 _ _ _ _ _ _ hwf hrank hmts
                    have hp0mem : p0 ∈ pp.datasource_parents.filterMap (findDS s.db) := by
                      rw [hcons]
                      exact List.mem_cons_self _ _
                    have hp0lt : rank p0.id < rank target := by
                      obtain ⟨pid0, hpid0, hfind⟩ := List.mem_filterMap.mp hp0mem
                      have hpid : p0.id = pid0 := by simpa using List.find?_some hfind
                      rw [hpid]
                      exact hrank target pp hprod pid0 hpid0
                    have hm1target : mapGet memo1 target = none := by
                      cases hc : mapGet memo1 target with
                      | none => rfl
                      | some w =>
                        have hN : NewlyMemoized memo memo1 target :=
                          ⟨hmemo, by rw [hc]; rfl⟩
                        have := hrank1 target hN
                        omega
                    have hcnt := execCount_exec_success hex
                    have hprod1 : producing s1.db target = some pp := by
                      rw [producing_frame hfr1]
                      exact hprod
                    have hinv2 : MatCountInv s1 memo1 s2
                        ((target, r.output_snapshot) :: memo1) := by
                      refine ⟨?_, ?_, ?_, ?_⟩
                      · intro pid
                        rw [hcnt pid]
                        exact Nat.le_add_right _ _
                      · intro t ht
                        rw [mapGet_cons]
                        by_cases hk : target = t
                        · simp [hk]
                        · rw [if_neg hk]
                          exact ht
                      · intro pid
                        constructor
                        · rw [hcnt pid]
                          by_cases hp : pp.id = pid <;> simp [hp]
                        · intro hlt
                          rw [hcnt pid] at hlt
                          by_cases hp : pp.id = pid
                          · refine ⟨target, pp, hprod1, hp, hm1target, ?_⟩
                            rw [mapGet_cons]
                            simp
                          · rw [if_neg hp] at hlt
                            omega
                      · intro t pp2 hN hpt
                        have ht := newly_cons hN
                        subst ht
                        rw [hprod1] at hpt
                        have hpp2 : pp2 = pp := by
                          simpa using hpt.symm
                        subst hpp2
                        rw [hcnt pp2.id, if_pos rfl]
                        omega
                    refine ⟨matCountInv_trans hwf hfr1 hinv1 hinv2, ?_⟩
                    intro t hN
                    rcases newly_split memo1 hN with hA | hB
                    · have := hrank1 t hA
                      omega
                    · have ht := newly_cons hB
                      subst ht
                      exact le_rfl
    refine ⟨P1, ?_⟩
    intro ps
    induction ps with
    | nil =>
      intro s memo s' memo' mp hwf hrank h
      unfold materialize_parents at h
      simp only [Prod.mk.injEq, Except.ok.injEq] at h
      obtain ⟨h1, h2, h3⟩ := h
      subst h1
      subst h2
      refine ⟨matCountInv_refl s memo, ?_⟩
      intro t hN
      obtain ⟨h0, hs⟩ := hN
      rw [h0] at hs
      simp at hs
    | cons p ps ihps =>
      intro s memo s' memo' mp hwf hrank h
      unfold materialize_parents at h
      split at h
      case h_1 s1 e hmts => exact absurd h (by simp)
      case h_2 s1 memo1 v1 hmts =>
        split at h
        case h_1 s2 e hmtp2 => exact absurd h (by simp)
        case h_2 s2 memo2 rest2 hmtp2 =>
          simp only [Prod.mk.injEq, Except.ok.injEq] at h
          obtain ⟨h1, h2, h3⟩ := h
          subst h1
          subst h2
          have hfr1 : Frame s s1 := mat_frame (f + 1) _ _ _ _ _ hmts
          have hwf1 : SysWF s1 := hwf.of_frame hfr1
          have hrank1db : RankOK s1.db rank := rankok_frame hfr1 hrank
          obtain ⟨hinv1, hrk1⟩ := P1 _ _ _ _ _ _ hwf hrank hmts
          obtain ⟨hinv2, hrk2⟩ := ihps _ _ _ _ _ hwf1 hrank1db hmtp2
          refine ⟨matCountInv_trans hwf hfr1 hinv1 hinv2, ?_⟩
          intro t hN
          rcases newly_split memo1 hN with hA | hB
          · exact ⟨p, List.mem_cons_self _ _, hrk1 t hA⟩
          · obtain ⟨q, hq, hle⟩ := hrk2 t hB
            exact ⟨q, List.mem_cons_of_mem _ hq, hle⟩


/-- C6.  Materializer memoization and base case.  On a well-formed state
whose preprocess parent graph is acyclic (witnessed by a rank function),
(1) a datasource with no producing preprocess yields its current active
snapshot id and memoizes it, (2) failing with InvalidState when the
datasource row is missing or no active snapshot is set, and (3) any
successful top-level materialization (empty starting memo) executes every
preprocess at most once, and executes the producer of every datasource it
memoized exactly once — even when that datasource is a shared ancestor
reached along two paths of a join. -/
theorem C6_materializer_memoization {M : Model Table D} {rank : Nat → Nat} {s : Sys D}
    (hwf : SysWF s) (hrank : RankOK s.db rank) :
    (∀ (f : Nat) (memo : Memo) (target a : Nat) (ds : DataSource),
      producing s.db target = none → mapGet memo target = none →
      findDS s.db target = some ds → ds.active_snapshot_id = some a →
      materialize_to_snapshot M (f + 1) s memo target =
        (s, .ok ((target, a) :: memo, a))) ∧
    (∀ (f : Nat) (memo : Memo) (target : Nat),
      producing s.db target = none → mapGet memo target = none →
      (findDS s.db target = none ∨
        ∃ ds, findDS s.db target = some ds ∧ ds.active_snapshot_id = none) →
      materialize_to_snapshot M (f + 1) s memo target = (s, .error .invalidState)) ∧
    (∀ (f target : Nat) (s' : Sys D) (memo' : Memo) (v : Nat),
      materialize_to_snapshot M f s [] target = (s', .ok (memo', v)) →
      (∀ pid, execCount s' pid ≤ execCount s pid + 1) ∧
      (∀ u pp, producing s.db u = some pp → (mapGet memo' u).isSome = true →
        execCount s' pp.id = execCount s pp.id + 1)) := by
  refine ⟨?_, ?_, ?_⟩
  · intro f memo target a ds hprod hm0 hds hact
    unfold materialize_to_snapshot
    rw [hm0, hprod]
    simp only [hds, hact]
  · intro f memo target hprod hm0 hdisj
    unfold materialize_to_snapshot
    rw [hm0, hprod]
    rcases hdisj with hds | ⟨ds, hds, hact⟩
    · simp only [hds]
    · simp only [hds, hact]
  · intro f target s' memo' v h
    obtain ⟨⟨mono, pres, cnt, low⟩, hrk⟩ :=
      (mts_count M rank f).1 s [] target s' memo' v hwf hrank h
    refine ⟨fun pid => (cnt pid).1, ?_⟩
    intro u pp hpu hmem
    have hN : NewlyMemoized [] memo' u := ⟨rfl, hmem⟩
    have hlow := low u pp hN hpu
    have hup := (cnt pp.id).1
    omega

set_option maxRecDepth 8000 in
/-- Witness for C6: on the concrete two-level chain (root 0 → preprocess A
→ datasource 4 → join preprocess B with both parents 4 → datasource 6),
materializing the root yields its active snapshot, and materializing 6
executes A exactly once and B exactly once despite A being reached along
both join paths. -/
theorem C6_materializer_memoization_witness :
    materialize_to_snapshot testModel 1 c6w_state [] 0 =
      (c6w_state, .ok ([(0, 1)], 1)) ∧
    ∃ s' memo' v,
      materialize_to_snapshot testModel 3 c6w_state [] 6 = (s', .ok (memo', v)) ∧
      execCount s' 3 = execCount c6w_state 3 + 1 ∧
      execCount s' 5 = execCount c6w_state 5 + 1 ∧
      ∀ pid, execCount s' pid ≤ execCount c6w_state pid + 1 := by
  have hwf : SysWF c6w_state :=
    ⟨by decide, by decide, by decide, by decide, by decide, by decide⟩
  have hrank : RankOK c6w_state.db
      (fun t => if t = 6 then 2 else if t = 4 then 1 else 0) := by
    intro c pp h par hpar
    have hchild : pp.datasource_child_id = c := by simpa using List.find?_some h
    have hmem : pp ∈ ([⟨3, "A", [], 4, [0]⟩,
        ⟨5, "B", [⟨"join", none, none, none, none⟩], 6, [4, 4]⟩] : List Preprocess) :=
      List.mem_of_find?_eq_some h
    simp only [List.mem_cons, List.not_mem_nil, or_false] at hmem
    rcases hmem with hA | hB
    · subst hA
      have hc : c = 4 := hchild.symm
      subst hc
      have hp0 : par = 0 := by simpa using hpar
      subst hp0
      decide
    · subst hB
      have hc : c = 6 := hchild.symm
      subst hc
      have hp4 : par = 4 := by
        have : par ∈ ([4, 4] : List Nat) := hpar
        simpa using this
      subst hp4
      decide
  have hC := @C6_materializer_memoization Unit Unit testModel
    (fun t => if t = 6 then 2 else if t = 4 then 1 else 0) c6w_state hwf hrank
  constructor
  · exact hC.1 0 [] 0 1 ⟨0, "r", none, some 1⟩ rfl rfl rfl rfl
  · have hexec : materialize_to_snapshot testModel 3 c6w_state [] 6 =
        ((materialize_to_snapshot testModel 3 c6w_state [] 6).1,
          .ok ([(6, 16), (4, 13), (0, 1)], 16)) := by
      have h2nd : (materialize_to_snapshot testModel 3 c6w_state [] 6).2 =
          .ok ([(6, 16), (4, 13), (0, 1)], 16) := by
        simp [materialize_to_snapshot, materialize_parents, producing, findDS, findPP,
          findSnap, mapGet, lookupFile, c6w_state, testModel, execute_preprocess,
          execute_phase2, run_steps, maybe_copy_snap, resolve_join, opOr, addSnap,
          addExec, setSchema, setActive, addDS]
      exact Prod.ext rfl h2nd
    obtain ⟨hup, honce⟩ := hC.2.2 3 6 _ [(6, 16), (4, 13), (0, 1)] 16 hexec
    refine ⟨_, [(6, 16), (4, 13), (0, 1)], 16, hexec, ?_, ?_, hup⟩
    · exact honce 4 ⟨3, "A", [], 4, [0]⟩ rfl (by rfl)
    · exact honce 6 ⟨5, "B", [⟨"join", none, none, none, none⟩], 6, [4, 4]⟩ rfl (by rfl)

end Galileo
